import Mathlib

/-!
# copier: a shallow embedding of `copy.go`

The development follows `src/copy.go` function by function.

* Text and file contents are byte strings (`Str`, a list of byte values).
* The process-wide variable `sharedKey` is passed explicitly.
* Library calls the program makes (`bufio.Scanner`, `filepath.WalkDir`,
  `os.Create`, `net.Dial`, ...) are modelled after their documented behaviour;
  whatever the environment decides (does a dial succeed, how many bytes does
  one `Read` return, can a directory be read) is an explicit input.

Part I holds the definitions, Part II the theorems.
-/

namespace Copier

/-! ## Part I: definitions -/

/-- One byte of a Go `string` or `[]byte`. -/
abbrev Byte := Nat

/-- A Go `string` / `[]byte`: a sequence of bytes. -/
abbrev Str := List Byte

/-- The bytes of an ASCII literal of the source. -/
def lit (s : String) : Str := s.toList.map Char.toNat

/-- The line terminator `'\n'`. -/
def NL : Byte := 10

/-- The carriage return `'\r'`. -/
def CR : Byte := 13

/-- The constant `PingMessage = "__ping__"` (copy.go:18). -/
def PingMessage : Str := lit "__ping__"

/-- The constant `PongMessage = "__pong__"` (copy.go:19). -/
def PongMessage : Str := lit "__pong__"

/-- The constant `CloseMessage = "__close__"` (copy.go:20). -/
def CloseMessage : Str := lit "__close__"

/-- The constant `TotalFiles = 3000` (copy.go:17): the capacity of the job
queue `fileChan` and the batch size of the progress line. -/
def TotalFiles : Nat := 3000

/-! ### `main` (copy.go:25-63) -/

/-- The parsed command line flags of `main` (copy.go:26-35). -/
structure Flags where
  mode : Str
  dir : Str
  host : Str
  port : Int
  workers : Int
  resume : Bool
  compress : Str
  checksum : Bool
  bandwidth : Int
  key : Str
  deriving DecidableEq, Repr

/-- The defaults `flag.String`/`flag.Int`/`flag.Bool` declare (copy.go:26-35). -/
def defaultFlags : Flags :=
  { mode := lit "client", dir := [], host := lit "localhost", port := 9090,
    workers := 16, resume := false, compress := lit "none", checksum := false,
    bandwidth := 0, key := [] }

/-- The diagnostics of the three `log.Fatal` calls of `main`. -/
inductive Diagnostic where
  /-- the mode is none of client, server, dir (copy.go:40); the mode is printed -/
  | invalidMode (mode : Str)
  /-- the flag `--dir` is empty (copy.go:45) -/
  | dirRequired
  /-- the flag `--key` is empty (copy.go:49) -/
  | keyRequired
  deriving DecidableEq, Repr

/-- What `main` does after flag parsing: it dies in `log.Fatal`, or it calls
exactly one entry point with the arguments shown. -/
inductive Dispatch where
  | fatal (diagnostic : Diagnostic)
  | startServer (port : Int) (dir : Str) (workers : Int) (compress : Str) (checksum : Bool)
  | startClient (host : Str) (port : Int) (dir : Str) (workers : Int) (resume : Bool)
      (compress : Str) (checksum : Bool) (bandwidth : Int)
  | listFiles (dir : Str)
  deriving DecidableEq, Repr

/-- The result of `main`: the value of the global `sharedKey` when `main` leaves
its validation block, and what it does next. -/
structure MainResult where
  sharedKey : Str
  next : Dispatch
  deriving DecidableEq, Repr

/-- The function `main` (copy.go:39-62). `key0` is the value of the global
`sharedKey` at program start (the empty string). `log.Fatal` exits the
process, so nothing after it runs. -/
def main (f : Flags) (key0 : Str) : MainResult :=
  if f.mode ≠ lit "client" ∧ f.mode ≠ lit "server" ∧ f.mode ≠ lit "dir" then
    ⟨key0, .fatal (.invalidMode f.mode)⟩
  else if f.mode ≠ lit "dir" then
    if f.dir = [] then
      ⟨key0, .fatal .dirRequired⟩
    else if f.key = [] then
      ⟨key0, .fatal .keyRequired⟩
    else if f.mode = lit "server" then
      ⟨f.key, .startServer f.port f.dir f.workers f.compress f.checksum⟩
    else if f.mode = lit "client" then
      ⟨f.key, .startClient f.host f.port f.dir f.workers f.resume f.compress f.checksum
        f.bandwidth⟩
    else
      ⟨f.key, .listFiles f.dir⟩
  else
    ⟨key0, .listFiles f.dir⟩

/-- Whether `main` ended in `log.Fatal`. -/
def Dispatch.isFatal : Dispatch → Bool
  | .fatal _ => true
  | _ => false

/-! ### `startServer`: the accept loop and its admission gate (copy.go:90-114) -/

/-- Where the accept loop of `startServer` stands. -/
inductive LoopPc where
  /-- at `ln.Accept()` (copy.go:101) -/
  | accept
  /-- holding an accepted connection, at `sem <- struct{}{}` (copy.go:106) -/
  | acquire
  /-- slot acquired, at `wg.Add(1); go func(c net.Conn) {...}(conn)` (copy.go:107-112) -/
  | spawn
  deriving DecidableEq, Repr

/-- The state of a running `startServer`. Goroutines are counted by the place
they are at. -/
structure ServerState where
  /-- position of the accept loop -/
  pc : LoopPc
  /-- number of values buffered in the channel `sem` -/
  sem : Nat
  /-- goroutines created by `go` that have not yet entered `handleConnection` -/
  started : Nat
  /-- goroutines inside `handleConnection` (connection handlers running) -/
  running : Nat
  /-- goroutines whose `handleConnection` has returned and whose deferred
  `<-sem` has not run yet -/
  exiting : Nat
  /-- value of the `sync.WaitGroup` counter -/
  wg : Nat
  deriving DecidableEq, Repr

/-- The scheduler's choices: which of the enabled moves happens next. -/
inductive ServerEvent where
  /-- the call `ln.Accept()` returns a connection -/
  | acceptOk
  /-- the call `ln.Accept()` returns an error: logged, `continue` -/
  | acceptErr
  /-- the send `sem <- struct{}{}` completes into the channel buffer -/
  | acquire
  /-- on an unbuffered channel, the send completes by meeting a deferred `<-sem` -/
  | rendezvous
  /-- the statements `wg.Add(1)` and `go` -/
  | spawn
  /-- a created goroutine calls `handleConnection` -/
  | enter
  /-- the call of `handleConnection` returns in some goroutine -/
  | finish
  /-- a deferred `<-sem` takes a value out of the buffer, then `wg.Done()` -/
  | release
  deriving DecidableEq, Repr

/-- The state of `startServer` when it first reaches the accept loop
(copy.go:91-100): none when `net.Listen` fails (`log.Fatalf`) or when
`make(chan struct{}, workers)` panics on a negative size. -/
def startServer (listenOk : Bool) (workers : Int) : Option ServerState :=
  if !listenOk then none
  else if workers < 0 then none
  else some { pc := .accept, sem := 0, started := 0, running := 0, exiting := 0, wg := 0 }

/-- One move of the server, none when the move is not enabled in `s`. A send on
`sem` completes only while fewer than `workers` values are buffered; when the
loop waits at the send it accepts nothing. -/
def serverStep (workers : Int) (s : ServerState) : ServerEvent → Option ServerState
  | .acceptOk => if s.pc = .accept then some { s with pc := .acquire } else none
  | .acceptErr => if s.pc = .accept then some s else none
  | .acquire =>
      if s.pc = .acquire ∧ (s.sem : Int) < workers then
        some { s with pc := .spawn, sem := s.sem + 1 }
      else none
  | .rendezvous =>
      if s.pc = .acquire ∧ workers = 0 ∧ 0 < s.exiting then
        some { s with pc := .spawn, exiting := s.exiting - 1, wg := s.wg - 1 }
      else none
  | .spawn =>
      if s.pc = .spawn then
        some { s with pc := .accept, started := s.started + 1, wg := s.wg + 1 }
      else none
  | .enter =>
      if 0 < s.started then
        some { s with started := s.started - 1, running := s.running + 1 }
      else none
  | .finish =>
      if 0 < s.running then
        some { s with running := s.running - 1, exiting := s.exiting + 1 }
      else none
  | .release =>
      if 0 < s.exiting ∧ 0 < s.sem then
        some { s with exiting := s.exiting - 1, sem := s.sem - 1, wg := s.wg - 1 }
      else none

/-- Run a schedule from a state; none when some move of it is not enabled. -/
def serverRun (workers : Int) : ServerState → List ServerEvent → Option ServerState
  | s, [] => some s
  | s, e :: es =>
      match serverStep workers s e with
      | none => none
      | some s' => serverRun workers s' es

/-- The states `startServer` can be in after the schedule `es`. -/
def serverAfter (listenOk : Bool) (workers : Int) (es : List ServerEvent) :
    Option ServerState :=
  match startServer listenOk workers with
  | none => none
  | some s => serverRun workers s es

/-- The gate invariant: every buffered slot belongs to the loop (between the
send and `go`) or to one goroutine that has not yet released it. -/
def ServerState.gateInv (workers : Int) (s : ServerState) : Prop :=
  (if s.pc = .spawn then 1 else 0) + s.started + s.running + s.exiting = s.sem ∧
    (s.sem : Int) ≤ workers

/-! ### `bufio.Scanner` with the default split function `ScanLines` -/

/-- What a `net.Conn` (or an `os.File`) still has to deliver: the byte slices
its successive `Read` calls return, in order, before end of stream. How the
bytes of a stream fall into reads is decided by the network, not by the
program. -/
abbrev Chunks := List Str

/-- The limit `bufio.MaxScanTokenSize = 64 * 1024`: the scanner's buffer never grows
beyond it. -/
def MaxScanTokenSize : Nat := 64 * 1024

/-- The helper `dropCR` of package bufio: drop one trailing `'\r'`. -/
def dropCR (data : Str) : Str :=
  if data.getLast? = some CR then data.dropLast else data

/-- Cut `data` at its first `'\n'` (`bytes.IndexByte(data, '\n')`): the bytes
before it and the bytes after it; none when `data` holds no `'\n'`. -/
def splitNL : Str → Option (Str × Str)
  | [] => none
  | b :: rest =>
      if b = NL then some ([], rest)
      else
        match splitNL rest with
        | none => none
        | some (line, after) => some (b :: line, after)

/-- What the scanner can do with the bytes it holds, before reading more. -/
inductive Buffered where
  /-- a full line is buffered: its text, and the bytes that stay buffered -/
  | token (text : Str) (rest : Str)
  /-- the buffer is full at its maximal size and holds no line: `ErrTooLong` -/
  | tooLong
  /-- no line yet and room left: read more -/
  | more
  deriving DecidableEq, Repr

/-- The split step of `Scanner.Scan` on the buffered bytes. The buffer holds at
most `MaxScanTokenSize` bytes, so a line of that many bytes or more never fits
together with its terminator and the scan fails with `ErrTooLong`. -/
def splitBuffered (buf : Str) : Buffered :=
  match splitNL buf with
  | some (line, rest) =>
      if MaxScanTokenSize ≤ line.length then .tooLong else .token (dropCR line) rest
  | none => if MaxScanTokenSize ≤ buf.length then .tooLong else .more

/-- The outcome of one `scanner.Scan()`. -/
inductive ScanResult where
  /-- the call returned true: `scanner.Text()`, the bytes left in the scanner's
  buffer, and what the connection still has to deliver -/
  | token (text : Str) (buf : Str) (conn : Chunks)
  /-- the call returned false (end of stream, or `ErrTooLong`) -/
  | stop
  deriving DecidableEq, Repr

/-- One call of `scanner.Scan()`: `buf` are the bytes the scanner has read from
the connection and not yet handed out, `conn` what the connection still
delivers. The scanner reads from the connection only when its buffer holds no
full line, and each read appends a whole chunk to the buffer: bytes that
follow the line in the same chunk stay in the scanner's buffer. At end of
stream a last line without terminator is handed out if there is one. -/
def scan : Str → Chunks → ScanResult
  | buf, [] =>
      match splitBuffered buf with
      | .token text rest => .token text rest []
      | .tooLong => .stop
      | .more => if buf = [] then .stop else .token (dropCR buf) [] []
  | buf, chunk :: conn =>
      match splitBuffered buf with
      | .token text rest => .token text rest (chunk :: conn)
      | .tooLong => .stop
      | .more => scan (buf ++ chunk) conn

/-! ### The server's file system -/

/-- The destination file system: the regular files (path and content) and the
directories made by `os.MkdirAll`. -/
structure FS where
  files : List (Str × Str)
  dirs : List Str
  deriving DecidableEq, Repr

/-- The empty file system. -/
def FS.empty : FS := { files := [], dirs := [] }

/-- The content of the file at `path`, none when there is no such file. -/
def FS.read (fs : FS) (path : Str) : Option Str :=
  match fs.files.find? (fun e => e.1 = path) with
  | some e => some e.2
  | none => none

/-- The call `os.MkdirAll(dir, 0755)` when it succeeds. -/
def FS.mkdirAll (fs : FS) (dir : Str) : FS :=
  { fs with dirs := if dir ∈ fs.dirs then fs.dirs else dir :: fs.dirs }

/-- The call `os.Create(path)` when it succeeds: the file exists and is empty
(an existing file is truncated). -/
def FS.create (fs : FS) (path : Str) : FS :=
  { fs with files := (path, []) :: fs.files.filter (fun e => e.1 ≠ path) }

/-- Append `bytes` to the file at `path` (writes through the open file). -/
def FS.append (fs : FS) (path : Str) (bytes : Str) : FS :=
  { fs with files := fs.files.map (fun e => if e.1 = path then (e.1, e.2 ++ bytes) else e) }

/-- What the operating system decides for the server: the result of
`filepath.Join` and `filepath.Dir` on its paths, and which `os.MkdirAll` and
`os.Create` calls fail. -/
structure ServerEnv where
  join : Str → Str → Str
  parentDir : Str → Str
  mkdirAllFails : Str → Bool
  createFails : Str → Bool

/-- A plain instance of `filepath.Join` for clean relative paths: base, slash, path. -/
def joinSlash (base rel : Str) : Str := base ++ lit "/" ++ rel

/-- A plain instance of `filepath.Dir` for clean paths: everything before the last slash. -/
def dirOf (path : Str) : Str :=
  (path.reverse.dropWhile (fun b => b ≠ 47)).drop 1 |>.reverse

/-- An operating system on which no directory or file creation fails. -/
def okEnv : ServerEnv :=
  { join := joinSlash, parentDir := dirOf, mkdirAllFails := fun _ => false,
    createFails := fun _ => false }

/-! ### `handleConnection` (copy.go:116-176) -/

/-- The lines `handleConnection` logs, one constructor per `log` call. -/
inductive ServerLog where
  | compressUnsupported
  | checksumUnsupported
  | noKeyLine
  | keyRejected (clientKey : Str)
  | closeReceived
  | receiving (relPath : Str)
  | mkdirFailed (dir : Str)
  | createFailed (absPath : Str)
  | saved (relPath : Str)
  deriving DecidableEq, Repr

/-- What one run of `handleConnection` has done when it returns. -/
structure Handled where
  /-- the destination file system -/
  fs : FS
  /-- the bytes handed to `conn.Write`, in order -/
  written : Str
  /-- the log lines, in order -/
  log : List ServerLog
  /-- the deferred `conn.Close()` has run -/
  closed : Bool
  deriving DecidableEq, Repr

/-- The loop `for scanner.Scan() { ... }` of `handleConnection` (copy.go:139-175).
`buf` and `conn` are the scanner's buffer and the connection's remaining input,
`st` what the handler has done so far. `io.Copy(out, conn)` reads the
connection itself, not the scanner: it gets what the connection still has to
deliver, up to end of stream, and never the bytes already in the scanner's
buffer. The result is none only when `fuel` runs out. -/
def handleLoop (env : ServerEnv) (baseDir : Str) :
    Nat → Str → Chunks → Handled → Option Handled
  | 0, _, _, _ => none
  | fuel + 1, buf, conn, st =>
      match scan buf conn with
      | .stop => some { st with closed := true }
      | .token line buf' conn' =>
          if line = CloseMessage then
            some { st with log := st.log ++ [ServerLog.closeReceived], closed := true }
          else if line = PingMessage then
            handleLoop env baseDir fuel buf' conn'
              { st with written := st.written ++ (PongMessage ++ [NL]) }
          else
            let relPath := line
            let absPath := env.join baseDir relPath
            let st1 := { st with log := st.log ++ [ServerLog.receiving relPath] }
            if env.mkdirAllFails (env.parentDir absPath) then
              some { st1 with log := st1.log ++ [ServerLog.mkdirFailed (env.parentDir absPath)],
                              closed := true }
            else
              let fs1 := st1.fs.mkdirAll (env.parentDir absPath)
              if env.createFails absPath then
                some { st1 with fs := fs1, log := st1.log ++ [ServerLog.createFailed absPath],
                                closed := true }
              else
                let fs2 := (fs1.create absPath).append absPath conn'.flatten
                handleLoop env baseDir fuel buf' []
                  { st1 with fs := fs2, log := st1.log ++ [ServerLog.saved relPath] }

/-- The two notices at the head of `handleConnection` (copy.go:118-125):
compression and checksums are announced as not supported, nothing else. -/
def unsupportedLog (compress : Str) (checksum : Bool) : List ServerLog :=
  (if compress ≠ lit "none" then [ServerLog.compressUnsupported] else []) ++
    (if checksum then [ServerLog.checksumUnsupported] else [])

/-- The number of bytes a scanner buffer and a connection still hold. -/
def pending (buf : Str) (conn : Chunks) : Nat := buf.length + conn.flatten.length

/-- The function `handleConnection` (copy.go:116-176), run on a connection
that delivers `conn` and then end of stream, on the file system `fs`. Every
turn of the loop takes at least one byte out of the scanner's buffer or the
connection, so the fuel given here is enough (`handleConnection_returns`). -/
def handleConnection (env : ServerEnv) (sharedKey : Str) (conn : Chunks)
    (baseDir compress : Str) (checksum : Bool) (fs : FS) : Option Handled :=
  let log0 := unsupportedLog compress checksum
  match scan [] conn with
  | .stop =>
      some { fs := fs, written := [], log := log0 ++ [ServerLog.noKeyLine], closed := true }
  | .token clientKey buf conn' =>
      if clientKey ≠ sharedKey then
        some { fs := fs, written := [], log := log0 ++ [ServerLog.keyRejected clientKey],
               closed := true }
      else
        handleLoop env baseDir (pending buf conn' + 1) buf conn'
          { fs := fs, written := [], log := log0, closed := false }

/-- The first line of a byte stream as the wire protocol defines it: the bytes
before the first `'\n'`. -/
def firstLine (stream : Str) : Str := stream.takeWhile (fun b => b ≠ NL)

/-! ### `testConnection` (copy.go:291-306) -/

/-- The far end of a dialled connection as the client sees it: for the bytes
the client writes, none when the write fails, else the chunks the client's
reads then deliver before end of stream. -/
abbrev Peer := Str → Option Chunks

/-- The function `testConnection` (copy.go:291-306). `dial` is the outcome of
`net.DialTimeout`: none when it fails. -/
def testConnection (sharedKey : Str) (dial : Option Peer) : Bool :=
  match dial with
  | none => false
  | some peer =>
      match peer (sharedKey ++ [NL] ++ PingMessage ++ [NL]) with
      | none => false
      | some reply =>
          match scan [] reply with
          | .token text _ _ => decide (text = PongMessage)
          | .stop => false

/-- A way the network cuts a byte stream into the chunks that reads return. -/
def Chunking (cut : Str → Chunks) : Prop := ∀ s, (cut s).flatten = s

/-- The whole stream in one read. -/
def oneChunk (s : Str) : Chunks := [s]

/-- A server at the far end of a connection: `handleConnection` runs on the
bytes the client wrote, cut into reads by `deliver`, and the bytes the handler
writes come back cut by `back`. -/
def serverPeer (env : ServerEnv) (sharedKey baseDir compress : Str) (checksum : Bool)
    (fs : FS) (deliver back : Str → Chunks) : Peer :=
  fun sent =>
    match handleConnection env sharedKey (deliver sent) baseDir compress checksum fs with
    | none => none
    | some r => some (back r.written)

/-- The keys that travel as one line of the wire protocol: no line terminator
inside, no carriage return at the end, and shorter than the scanner's buffer. -/
def LineSafe (s : Str) : Prop :=
  NL ∉ s ∧ s.getLast? ≠ some CR ∧ s.length < MaxScanTokenSize

instance (s : Str) : Decidable (LineSafe s) := by
  unfold LineSafe
  infer_instance

/-! ### The source tree and `filepath.WalkDir` -/

/-- An error value returned by a system call. -/
abbrev IOError := Str

mutual
/-- What a path of the source tree names. -/
inductive Node where
  /-- a regular file with its content -/
  | regular (content : Str)
  /-- a symbolic link, device, named pipe or socket: no directory, no regular file -/
  | irregular
  /-- a directory: the entries `os.ReadDir` returns for it, sorted by name, and
  the error it returns with them, if any -/
  | dir (entries : Entries) (readErr : Option IOError)
/-- The entries of a directory: names and what they name. -/
inductive Entries where
  | nil
  | cons (name : Str) (node : Node) (rest : Entries)
end

/-- The part of an `os.DirEntry` the program looks at: `d.IsDir()`. -/
structure DirEntry where
  isDir : Bool
  deriving DecidableEq, Repr

/-- What a call of a walk callback comes to. -/
inductive Returned where
  /-- the callback returned nil -/
  | nil
  /-- the callback returned the error -/
  | err (e : IOError)
  /-- the callback did not return: its goroutine waits at a channel send for
  good, or the process ended first -/
  | never
  deriving DecidableEq, Repr

/-- The value a callback returns for the error it passes on. -/
def Returned.ofError : Option IOError → Returned
  | none => .nil
  | some e => .err e

/-- A callback of type `fs.WalkDirFunc` acting on a state: path, entry (nil
when `os.Lstat` of the root failed), incoming error; it returns nil or an
error, or it does not return. The callbacks of this program never return
`SkipDir` or `SkipAll`, so every error they return stops the walk. -/
abbrev WalkDirFunc (σ : Type) :=
  Str → Option DirEntry → Option IOError → σ → σ × Returned

mutual
/-- The function `walkDir` of package filepath: call the callback on the node
(a symbolic link is not followed and is no directory); for a directory, read
it, report a read error by a second call, and walk the entries in order. The
first error a callback returns ends the walk. -/
def walkDir {σ : Type} (fn : WalkDirFunc σ) : Str → Node → σ → σ × Returned
  | path, .regular _, s => fn path (some ⟨false⟩) none s
  | path, .irregular, s => fn path (some ⟨false⟩) none s
  | path, .dir entries readErr, s =>
      match fn path (some ⟨true⟩) none s with
      | (s1, .nil) =>
          match readErr with
          | some re =>
              match fn path (some ⟨true⟩) (some re) s1 with
              | (s2, .nil) => walkEntries fn path entries s2
              | (s2, .err e) => (s2, .err e)
              | (s2, .never) => (s2, .never)
          | none => walkEntries fn path entries s1
      | (s1, .err e) => (s1, .err e)
      | (s1, .never) => (s1, .never)
/-- The loop of `walkDir` over the entries of the directory at `path`. -/
def walkEntries {σ : Type} (fn : WalkDirFunc σ) : Str → Entries → σ → σ × Returned
  | _, .nil, s => (s, .nil)
  | path, .cons name node rest, s =>
      match walkDir fn (joinSlash path name) node s with
      | (s1, .nil) => walkEntries fn path rest s1
      | (s1, .err e) => (s1, .err e)
      | (s1, .never) => (s1, .never)
end

/-- The function `filepath.WalkDir(root, fn)`: `top` is what `os.Lstat(root)`
finds, a node or an error (reported to the callback with a nil entry). -/
def WalkDir {σ : Type} (root : Str) (top : Except IOError Node) (fn : WalkDirFunc σ) (s : σ) :
    σ × Returned :=
  match top with
  | .error e => fn root none (some e) s
  | .ok node => walkDir fn root node s

/-- The function `filepath.Rel(base, path)` for a clean `path` at or below a
clean `base`: a dot for `base` itself, else what follows `base` and the slash. -/
def relPath (base path : Str) : Str :=
  if path = base then lit "." else path.drop (base.length + 1)

/-! ### `startClient`: the checkpoint and the walker (copy.go:193-224) -/

/-- The loop `for scanner.Scan() { checkpoint[scanner.Text()] = true }`
(copy.go:200-202): the lines scanned, in order. -/
def scanAll : Nat → Str → Chunks → List Str
  | 0, _, _ => []
  | fuel + 1, buf, conn =>
      match scan buf conn with
      | .stop => []
      | .token text buf' conn' => text :: scanAll fuel buf' conn'

/-- The checkpoint set `startClient` loads (copy.go:193-205): empty without
`--resume` or when `checkpoint.log` cannot be opened (`file` is none), else
the lines of the file. The map holds only true values, so it is given by its
keys. -/
def loadCheckpoint (resume : Bool) (file : Option Chunks) : List Str :=
  if resume then
    match file with
    | none => []
    | some reads => scanAll (pending [] reads + 1) [] reads
  else []

/-- Whether one more send on `fileChan` completes when `sent` sends have
completed. `room` is the buffer of the channel, `make(chan string, TotalFiles)`
(copy.go:191), when nothing is ever received from it, and none when workers
receive: then a send may wait but completes. `budget` is the number of steps
the goroutine makes before the process ends, none when the process outlives
the goroutine. -/
def sendCompletes (room budget : Option Nat) (sent : Nat) : Bool :=
  (match room with
    | none => true
    | some capacity => decide (sent < capacity)) &&
  (match budget with
    | none => true
    | some steps => decide (sent < steps))

/-- The callback of the walker (copy.go:208-219): pass an error on; send on
`fileChan` the path of every entry that is no directory and whose relative
path is not in the checkpoint set. The state is the list of values whose send
on `fileChan` has completed; a send that does not complete keeps the callback
from returning. -/
def walkerFn (dir : Str) (checkpoint : List Str) (room budget : Option Nat) :
    WalkDirFunc (List Str) :=
  fun path d err pushed =>
    match err with
    | some e => (pushed, .err e)
    | none =>
        match d with
        | none => (pushed, .nil)
        | some d =>
            if !d.isDir then
              let rel := relPath dir path
              if !decide (rel ∈ checkpoint) then
                if sendCompletes room budget pushed.length then (pushed ++ [path], .nil)
                else (pushed, .never)
              else (pushed, .nil)
            else (pushed, .nil)

/-- What the walker goroutine has done when it ends or comes to a halt. -/
structure Walked where
  /-- the paths whose send on `fileChan` completed, in order -/
  pushed : List Str
  /-- the walk errors logged -/
  logged : List IOError
  /-- how many times `close(fileChan)` ran -/
  closes : Nat
  deriving DecidableEq, Repr

/-- The walker goroutine (copy.go:207-224) next to `workers` worker
goroutines. With a worker, values are received from the channel and
`wg.Wait()` (copy.go:255) holds the process until every worker has left its
`range fileChan`, that is until after the close: every send completes (each
worker comes back for the next value, its `sendFile` calls return) and the
goroutine reaches its log line and its `close`. Without a worker
(`workers <= 0` passes `main`) nothing is received and `wg.Wait()` returns at
once: the send that finds `TotalFiles` values buffered never completes, and
`exit` says after how many steps of the goroutine the process ends (none when
the goroutine is done before). A goroutine that halts neither logs nor closes. -/
def walker (dir : Str) (top : Except IOError Node) (checkpoint : List Str) (workers : Int)
    (exit : Option Nat) : Walked :=
  let room : Option Nat := if 0 < workers then none else some TotalFiles
  let budget : Option Nat := if 0 < workers then none else exit
  match WalkDir dir top (walkerFn dir checkpoint room budget) [] with
  | (pushed, .never) => { pushed := pushed, logged := [], closes := 0 }
  | (pushed, .err e) =>
      if sendCompletes none budget pushed.length then
        { pushed := pushed, logged := [e], closes := 1 }
      else { pushed := pushed, logged := [], closes := 0 }
  | (pushed, .nil) =>
      if sendCompletes none budget pushed.length then
        { pushed := pushed, logged := [], closes := 1 }
      else { pushed := pushed, logged := [], closes := 0 }

/-- One call the walk makes to its callback when no callback stops it. -/
inductive WalkEvent where
  /-- an entry is visited -/
  | entry (path : Str) (isDir : Bool)
  /-- an error is reported for the path -/
  | failed (path : Str) (err : IOError)
  deriving DecidableEq, Repr

mutual
/-- The calls a walk of the node makes, in order, when no callback returns an error. -/
def Node.events : Node → Str → List WalkEvent
  | .regular _, path => [.entry path false]
  | .irregular, path => [.entry path false]
  | .dir entries readErr, path =>
      .entry path true ::
        ((match readErr with
          | some e => [WalkEvent.failed path e]
          | none => []) ++ entries.events path)
/-- The calls a walk of the entries of the directory at `path` makes. -/
def Entries.events : Entries → Str → List WalkEvent
  | .nil, _ => []
  | .cons name node rest, path => node.events (joinSlash path name) ++ rest.events path
end

/-- The calls up to the first reported error, that error left out. -/
def beforeError : List WalkEvent → List WalkEvent
  | [] => []
  | .entry p d :: rest => .entry p d :: beforeError rest
  | .failed _ _ :: _ => []

/-- The first error a walk reports, if any. -/
def firstError : List WalkEvent → Option IOError
  | [] => none
  | .entry _ _ :: rest => firstError rest
  | .failed _ e :: _ => some e

/-- The paths of the visited entries that are no directories. -/
def nonDirPaths : List WalkEvent → List Str
  | [] => []
  | .entry p false :: rest => p :: nonDirPaths rest
  | _ :: rest => nonDirPaths rest

mutual
/-- The regular files below a node: path and content, in walk order. -/
def Node.regularFiles : Node → Str → List (Str × Str)
  | .regular content, path => [(path, content)]
  | .irregular, _ => []
  | .dir entries _, path => entries.regularFiles path
/-- The regular files below the entries of the directory at `path`. -/
def Entries.regularFiles : Entries → Str → List (Str × Str)
  | .nil, _ => []
  | .cons name node rest, path =>
      node.regularFiles (joinSlash path name) ++ rest.regularFiles path
end

mutual
/-- No directory of the tree fails to be read. -/
def Node.readable : Node → Bool
  | .regular _ => true
  | .irregular => true
  | .dir entries readErr => readErr.isNone && entries.readable
/-- No directory below these entries fails to be read. -/
def Entries.readable : Entries → Bool
  | .nil => true
  | .cons _ node rest => node.readable && rest.readable
end

/-- The jobs among visited entries: the non-directories whose relative path is
not in the checkpoint set. -/
def jobsAmong (dir : Str) (checkpoint : List Str) (evs : List WalkEvent) : List Str :=
  (nonDirPaths evs).filter (fun p => !decide (relPath dir p ∈ checkpoint))

/-- What a walk with the walker's callback comes to on a queue with room for
`room` values (none: workers receive, every send completes) when the process
outlives it: the jobs among the entries reached before the first error are
sent in order while there is room, and the walk returns that error, or nil,
unless a send found the queue full. -/
def walkOutcome (room : Option Nat) (s jobs : List Str) (err : Option IOError) :
    List Str × Returned :=
  match room with
  | none => (s ++ jobs, Returned.ofError err)
  | some capacity =>
      if s.length + jobs.length ≤ capacity then (s ++ jobs, Returned.ofError err)
      else (s ++ jobs.take (capacity - s.length), Returned.never)

/-- A source tree with a directory that cannot be read next to a regular
file: `a/` (unreadable) and `b.txt`. -/
def treeWithUnreadableDir : Node :=
  .dir (.cons (lit "a") (.dir .nil (some (lit "permission denied")))
    (.cons (lit "b.txt") (.regular (lit "x")) .nil)) none

/-- A source tree with a regular file and a symbolic link: `a.txt` and `l`. -/
def treeWithLink : Node :=
  .dir (.cons (lit "a.txt") (.regular (lit "hello")) (.cons (lit "l") .irregular .nil)) none

/-- The source tree of the spec's scenario: `a.txt` and `b/c.txt`. -/
def scenarioTree : Node :=
  .dir (.cons (lit "a.txt") (.regular (lit "hello"))
    (.cons (lit "b") (.dir (.cons (lit "c.txt") (.regular (lit "0123456789")) .nil) none)
      .nil)) none

/-! ### `sendFile` (copy.go:260-289) -/

/-- What the environment decides for one call of `sendFile`. -/
structure SendEnv where
  /-- the call `net.Dial` succeeds -/
  dial : Bool
  /-- the write of the key line succeeds (copy.go:279) -/
  keyLineOk : Bool
  /-- the write of the path line succeeds (copy.go:280) -/
  pathLineOk : Bool
  /-- the content `os.Open(filePath)` gives access to, none when it fails -/
  source : Option Str
  /-- the outcome of `io.Copy(conn, f)`: none when it copies the whole file,
  else the number of bytes that went out before a read or write error -/
  copyFailsAfter : Option Nat
  deriving DecidableEq, Repr

/-- The step of `sendFile` that returned a non-nil error. -/
inductive SendError where
  | dial
  | openSource
  | copy
  deriving DecidableEq, Repr

/-- What one call of `sendFile` returns and puts on the wire. -/
structure Sent where
  /-- the returned pair: the error, or the number of bytes copied -/
  result : Except SendError Nat
  /-- whether a connection was opened (and closed again on return) -/
  connected : Bool
  /-- the bytes that went onto the connection -/
  wire : Str
  deriving Repr

/-- Whether the call returned a nil error. -/
def Sent.ok (s : Sent) : Bool :=
  match s.result with
  | .ok _ => true
  | .error _ => false

/-- The function `sendFile` (copy.go:260-289). The results of the two
`fmt.Fprintf` calls are discarded (`_, _ =`): a failed write of the key line or
of the path line changes what is on the wire and nothing else. -/
def sendFile (sharedKey filePath baseDir : Str) (env : SendEnv) : Sent :=
  let rel := relPath baseDir filePath
  if !env.dial then { result := .error .dial, connected := false, wire := [] }
  else
    let keyLine := if env.keyLineOk then sharedKey ++ [NL] else []
    let pathLine := if env.pathLineOk then rel ++ [NL] else []
    match env.source with
    | none => { result := .error .openSource, connected := true, wire := keyLine ++ pathLine }
    | some content =>
        match env.copyFailsAfter with
        | some n =>
            { result := .error .copy, connected := true,
              wire := keyLine ++ pathLine ++ content.take n }
        | none =>
            { result := .ok content.length, connected := true,
              wire := keyLine ++ pathLine ++ content }

/-! ### The workers of `startClient` (copy.go:226-253) -/

/-- What the environment decides while a worker handles one job. -/
structure JobEnv where
  /-- the outcomes inside `sendFile` -/
  send : SendEnv
  /-- opening `checkpoint.log` for appending and writing to it succeed -/
  appendOk : Bool
  deriving DecidableEq, Repr

/-- The client's state shared by the workers, and the server's file system. -/
structure World where
  /-- the content of `checkpoint.log`, none while the file does not exist -/
  checkpointLog : Option Str
  /-- the counter `processed` -/
  processed : Nat
  /-- the counter `totalBytes` -/
  totalBytes : Nat
  /-- the jobs taken from the queue so far, in order -/
  taken : List Str
  /-- the jobs whose `sendFile` returned an error (each is logged) -/
  failed : List Str
  /-- the destination file system at the server -/
  serverFs : FS
  deriving DecidableEq, Repr

/-- The server of a run, as far as connections see it. -/
structure Server where
  env : ServerEnv
  sharedKey : Str
  baseDir : Str
  compress : Str
  checksum : Bool

/-- The destination file system after the server has handled one connection
that delivered `reads`. -/
def Server.handle (sv : Server) (reads : Chunks) (fs : FS) : FS :=
  match handleConnection sv.env sv.sharedKey reads sv.baseDir sv.compress sv.checksum fs with
  | some r => r.fs
  | none => fs

/-- Append a line to `checkpoint.log` with `O_APPEND|O_CREATE` (copy.go:243-245). -/
def appendLine (log : Option Str) (line : Str) : Option Str :=
  match log with
  | none => some (line ++ [NL])
  | some old => some (old ++ (line ++ [NL]))

/-- One turn of a worker's loop `for file := range fileChan` (copy.go:234-251),
together with what the server does with the connection `sendFile` opened:
`deliver` cuts the bytes on the wire into the reads of the server's handler. -/
def workerTurn (sharedKey dir : Str) (sv : Server) (deliver : Str → Chunks)
    (env : JobEnv) (file : Str) (w : World) : World :=
  let sent := sendFile sharedKey file dir env.send
  let fs := if sent.connected then sv.handle (deliver sent.wire) w.serverFs else w.serverFs
  match sent.result with
  | .error _ => { w with taken := w.taken ++ [file], failed := w.failed ++ [file], serverFs := fs }
  | .ok n =>
      { w with
        taken := w.taken ++ [file]
        totalBytes := w.totalBytes + n
        checkpointLog :=
          if env.appendOk then appendLine w.checkpointLog (relPath dir file)
          else w.checkpointLog
        processed := w.processed + 1
        serverFs := fs }

/-- The workers' turns in the order they happen: one job after the other. -/
def runJobs (sharedKey dir : Str) (sv : Server) (deliver : Str → Chunks)
    (jobEnv : Str → JobEnv) : List Str → World → World
  | [], w => w
  | file :: rest, w =>
      runJobs sharedKey dir sv deliver jobEnv rest
        (workerTurn sharedKey dir sv deliver (jobEnv file) file w)

/-! ### `sendCloseSignal` (copy.go:308-316) and `startClient` (copy.go:178-258) -/

/-- The bytes `sendCloseSignal` writes. -/
def closeSignal (sharedKey : Str) : Str := sharedKey ++ [NL] ++ CloseMessage ++ [NL]

/-- The bytes `testConnection` writes. -/
def probeBytes (sharedKey : Str) : Str := sharedKey ++ [NL] ++ PingMessage ++ [NL]

/-- What the network decides during one run of the client. -/
structure Net where
  /-- the dial of `testConnection` succeeds -/
  probeDial : Bool
  /-- the dial of `sendCloseSignal` succeeds -/
  closeDial : Bool
  /-- how the bytes a client writes fall into the reads of the server's handler -/
  deliver : Str → Chunks
  /-- how the bytes a handler writes fall into the reads of the client -/
  back : Str → Chunks
  /-- the reads of `checkpoint.log`, given its content -/
  fileReads : Str → Chunks
  /-- what happens to each job, by its path -/
  jobEnv : Str → JobEnv
  /-- the order in which the workers complete the queued jobs -/
  order : List Str → List Str
  /-- without a worker: after how many steps of the walker goroutine the
  process ends, none when the goroutine is done before -/
  walkerExit : Option Nat

/-- The arguments of `startClient` that matter, and the global `sharedKey`. -/
structure Client where
  sharedKey : Str
  dir : Str
  workers : Int
  resume : Bool

/-- What a run of `startClient` leaves behind. -/
structure ClientRun where
  /-- the run ended in `log.Fatal` after the probe -/
  fatal : Bool
  /-- the jobs whose send on `fileChan` completed -/
  queued : List Str
  /-- the state after the last worker has returned and the close signal is sent -/
  world : World
  deriving DecidableEq, Repr

/-- The function `startClient` (copy.go:178-258) against the server `sv`, one
connection at a time: the probe, the jobs in the order the workers complete
them, the close signal. Without a worker no job is taken from the queue.
`before` holds what outlives a run: `checkpoint.log` and the server's files;
the counters start at zero. -/
def startClient (c : Client) (top : Except IOError Node) (sv : Server) (net : Net)
    (before : World) : ClientRun :=
  let w := { before with processed := 0, totalBytes := 0, taken := [], failed := [] }
  let probe :=
    testConnection c.sharedKey
      (if net.probeDial then
        some (serverPeer sv.env sv.sharedKey sv.baseDir sv.compress sv.checksum w.serverFs
          net.deliver net.back)
      else none)
  let w0 :=
    if net.probeDial then
      { w with serverFs := sv.handle (net.deliver (probeBytes c.sharedKey)) w.serverFs }
    else w
  if !probe then { fatal := true, queued := [], world := w0 }
  else
    let checkpoint := loadCheckpoint c.resume (w0.checkpointLog.map net.fileReads)
    let queued := (walker c.dir top checkpoint c.workers net.walkerExit).pushed
    let w1 :=
      if 0 < c.workers then
        runJobs c.sharedKey c.dir sv net.deliver net.jobEnv (net.order queued) w0
      else w0
    let w2 :=
      if net.closeDial then
        { w1 with serverFs := sv.handle (net.deliver (closeSignal c.sharedKey)) w1.serverFs }
      else w1
    { fatal := false, queued := queued, world := w2 }

/-- The lines a checkpoint log holds for the relative paths `rels`. -/
def encodeLines : List Str → Str
  | [] => []
  | rel :: rest => rel ++ [NL] ++ encodeLines rest

/-- A network and disk on which nothing fails and every stream arrives in one read. -/
def calmNet (t : Str → Option Str) : Net :=
  { probeDial := true, closeDial := true, deliver := oneChunk, back := oneChunk,
    fileReads := oneChunk,
    jobEnv := fun file =>
      { send := { dial := true, keyLineOk := true, pathLineOk := true, source := t file,
                  copyFailsAfter := none },
        appendOk := true },
    order := id,
    walkerExit := none }

/-- The state before a first run: no checkpoint log, an empty destination. -/
def World.fresh : World :=
  { checkpointLog := none, processed := 0, totalBytes := 0, taken := [], failed := [],
    serverFs := FS.empty }

/-- The content of the regular file at `path` below the root `dir` of the tree. -/
def Node.open (t : Node) (dir path : Str) : Option Str :=
  match (t.regularFiles dir).find? (fun e => e.1 = path) with
  | some e => some e.2
  | none => none

/-- A cut of a stream into reads that each end right after a line terminator
or at the end of the stream: every line arrives in a read of its own. -/
def cutAfterNL : Str → Chunks
  | [] => []
  | b :: rest =>
      if b = NL then [NL] :: cutAfterNL rest
      else
        match cutAfterNL rest with
        | [] => [[b]]
        | chunk :: chunks => (b :: chunk) :: chunks

/-- A network and disk on which nothing fails and every line arrives in a
read of its own. -/
def lineNet (t : Str → Option Str) : Net :=
  { calmNet t with deliver := cutAfterNL }

/-- The client of the spec's scenario: `--dir=/src --key=K1 --workers=2`. -/
def scenarioClient (resume : Bool) : Client :=
  { sharedKey := lit "K1", dir := lit "/src", workers := 2, resume := resume }

/-- The server of the spec's scenario: `--dir=/out --key=K1`. -/
def scenarioServer : Server :=
  { env := okEnv, sharedKey := lit "K1", baseDir := lit "/out", compress := lit "none",
    checksum := false }

/-- The scenario's server on a disk where no file can be created. -/
def readOnlyServer : Server :=
  { scenarioServer with env := { okEnv with createFails := fun _ => true } }

/-- A source tree with one regular file whose name ends in a carriage return. -/
def treeWithCrName : Node :=
  .dir (.cons (lit "n\r") (.regular (lit "x")) .nil) none

/-- What the environment decides for a job whose connection is reset right
after the dial: both header writes fail. -/
def resetEnv (content : Str) : JobEnv :=
  { send := { dial := true, keyLineOk := false, pathLineOk := false, source := some content,
              copyFailsAfter := none },
    appendOk := true }

/-- The relative paths a sequence of worker turns records: one for each job
whose `sendFile` returned nil and whose append to the log succeeded. -/
def recorded (sharedKey dir : Str) (jobEnv : Str → JobEnv) (jobs : List Str) : List Str :=
  (jobs.filter (fun file =>
    (sendFile sharedKey file dir (jobEnv file).send).ok && (jobEnv file).appendOk)).map
    (relPath dir)

/-- The destination file system after the server has handled the connection
that the `sendFile` call of one job opened, if it opened one. -/
def deliverJob (sharedKey dir : Str) (sv : Server) (deliver : Str → Chunks)
    (jobEnv : Str → JobEnv) (fs : FS) (file : Str) : FS :=
  if (sendFile sharedKey file dir (jobEnv file).send).connected then
    sv.handle (deliver (sendFile sharedKey file dir (jobEnv file).send).wire) fs
  else fs

/-- Whether the `sendFile` call of a job returns nil. -/
def sendOk (sharedKey dir : Str) (jobEnv : Str → JobEnv) (file : Str) : Bool :=
  (sendFile sharedKey file dir (jobEnv file).send).ok

/-! ## Part II: theorems -/

/-! ### `main` -/

/-- C9: `main` ends in `log.Fatal` exactly when the mode is none of client,
server, dir, or the mode is client or server and `--dir` or `--key` is empty;
in that case nothing is dispatched and the stored key is left as it was. Otherwise it stores
the key (client and server mode only) and calls exactly the entry point of the
mode with the flag values. -/
theorem main_fatal_iff_and_dispatch (f : Flags) (key0 : Str) :
    ((main f key0).next.isFatal = true ↔
      ((f.mode ≠ lit "client" ∧ f.mode ≠ lit "server" ∧ f.mode ≠ lit "dir") ∨
        ((f.mode = lit "client" ∨ f.mode = lit "server") ∧ (f.dir = [] ∨ f.key = [])))) ∧
    ((main f key0).next.isFatal = true → (main f key0).sharedKey = key0) ∧
    ((main f key0).next.isFatal = false →
      (f.mode = lit "server" ∧
          main f key0 = ⟨f.key, .startServer f.port f.dir f.workers f.compress f.checksum⟩) ∨
      (f.mode = lit "client" ∧
          main f key0 = ⟨f.key, .startClient f.host f.port f.dir f.workers f.resume f.compress
            f.checksum f.bandwidth⟩) ∨
      (f.mode = lit "dir" ∧ main f key0 = ⟨key0, .listFiles f.dir⟩)) := by
  have hcs : lit "client" ≠ lit "server" := by decide
  have hcd : lit "client" ≠ lit "dir" := by decide
  have hsd : lit "server" ≠ lit "dir" := by decide
  by_cases hc : f.mode = lit "client"
  · by_cases hd : f.dir = []
    · simp [main, hc, hd, hcs, hcd, Dispatch.isFatal]
    · by_cases hk : f.key = []
      · simp [main, hc, hd, hk, hcs, hcd, Dispatch.isFatal]
      · simp [main, hc, hd, hk, hcs, hcd, Dispatch.isFatal]
  · by_cases hs : f.mode = lit "server"
    · by_cases hd : f.dir = []
      · simp [main, hs, hd, hcs.symm, hsd, Dispatch.isFatal]
      · by_cases hk : f.key = []
        · simp [main, hs, hd, hk, hcs.symm, hsd, Dispatch.isFatal]
        · simp [main, hs, hd, hk, hcs.symm, hsd, Dispatch.isFatal]
    · by_cases hm : f.mode = lit "dir"
      · simp [main, hm, hcd.symm, hsd.symm, Dispatch.isFatal]
      · simp [main, hc, hs, hm, Dispatch.isFatal]

/-! ### `startServer` -/

theorem serverStep_gateInv (workers : Int) (s s' : ServerState) (e : ServerEvent)
    (hinv : s.gateInv workers) (hstep : serverStep workers s e = some s') :
    s'.gateInv workers := by
  obtain ⟨pc, sem, started, running, exiting, wg⟩ := s
  unfold ServerState.gateInv at hinv ⊢
  cases e <;> simp only [serverStep] at hstep <;> split at hstep <;>
    simp only [Option.some.injEq, reduceCtorEq] at hstep <;> subst hstep <;>
    simp_all <;> omega

theorem serverRun_gateInv (workers : Int) (es : List ServerEvent) :
    ∀ s s' : ServerState, s.gateInv workers → serverRun workers s es = some s' →
      s'.gateInv workers := by
  induction es with
  | nil =>
      intro s s' hinv hrun
      simp only [serverRun, Option.some.injEq] at hrun
      exact hrun ▸ hinv
  | cons e es ih =>
      intro s s' hinv hrun
      simp only [serverRun] at hrun
      cases hstep : serverStep workers s e with
      | none => simp [hstep] at hrun
      | some s1 =>
          rw [hstep] at hrun
          exact ih s1 s' (serverStep_gateInv workers s s1 e hinv hstep) hrun

/-- C8: in every state `startServer` reaches, under every schedule of accepted
connections, slot acquisitions and handler completions, at most `workers`
connection handlers are running; even the handler goroutines not yet inside
or already out of `handleConnection` count within that bound. A connection
accepted while all slots are taken waits at the send on the gate. -/
theorem startServer_running_le_workers (listenOk : Bool) (workers : Int)
    (es : List ServerEvent) (s : ServerState)
    (hreach : serverAfter listenOk workers es = some s) :
    (s.running : Int) ≤ workers ∧
      ((s.started + s.running + s.exiting : Nat) : Int) ≤ workers := by
  unfold serverAfter at hreach
  cases h0 : startServer listenOk workers with
  | none => simp [h0] at hreach
  | some s0 =>
      rw [h0] at hreach
      have hinv0 : s0.gateInv workers := by
        unfold startServer at h0
        split at h0
        · simp at h0
        · split at h0
          · simp at h0
          · simp only [Option.some.injEq] at h0
            subst h0
            simp only [ServerState.gateInv]
            constructor
            · simp
            · simp only [Nat.cast_zero]
              omega
      have hinv := serverRun_gateInv workers es s0 s hinv0 hreach
      unfold ServerState.gateInv at hinv
      omega

theorem startServer_running_le_workers_witness :
    serverAfter true 1
        [ServerEvent.acceptOk, ServerEvent.acquire, ServerEvent.spawn, ServerEvent.enter,
          ServerEvent.acceptOk] =
      some { pc := LoopPc.acquire, sem := 1, started := 0, running := 1, exiting := 0, wg := 1 } ∧
    ((1 : Nat) : Int) ≤ 1 ∧ ((0 + 1 + 0 : Nat) : Int) ≤ 1 :=
  ⟨by decide, startServer_running_le_workers true 1
    [ServerEvent.acceptOk, ServerEvent.acquire, ServerEvent.spawn, ServerEvent.enter,
      ServerEvent.acceptOk]
    { pc := LoopPc.acquire, sem := 1, started := 0, running := 1, exiting := 0, wg := 1 }
    (by decide)⟩

/-! ### The scanner -/

theorem splitNL_eq_none {buf : Str} : splitNL buf = none ↔ NL ∉ buf := by
  induction buf with
  | nil => simp [splitNL]
  | cons b rest ih =>
      by_cases hb : b = NL
      · simp [splitNL, hb]
      · cases h : splitNL rest with
        | none =>
            have := ih.mp h
            simp [splitNL, hb, h, this, Ne.symm hb]
        | some p =>
            have hne : ¬ NL ∉ rest := fun hn => by rw [ih.mpr hn] at h; cases h
            simp only [splitNL, hb, h, if_false]
            simp only [reduceCtorEq, List.mem_cons, false_iff, not_not]
            right
            simpa using hne

theorem splitNL_eq_some {buf line rest : Str} (h : splitNL buf = some (line, rest)) :
    buf = line ++ NL :: rest ∧ NL ∉ line := by
  induction buf generalizing line with
  | nil => simp [splitNL] at h
  | cons b tl ih =>
      by_cases hb : b = NL
      · simp [splitNL, hb] at h
        obtain ⟨rfl, rfl⟩ := h
        simp [hb]
      · cases h' : splitNL tl with
        | none => simp [splitNL, hb, h'] at h
        | some p =>
            obtain ⟨l, r⟩ := p
            simp [splitNL, hb, h'] at h
            obtain ⟨rfl, rfl⟩ := h
            obtain ⟨h1, h2⟩ := ih h'
            refine ⟨by rw [h1]; simp, ?_⟩
            simp [h2, Ne.symm hb]

theorem splitNL_append_cons {line : Str} (rest : Str) (h : NL ∉ line) :
    splitNL (line ++ NL :: rest) = some (line, rest) := by
  induction line with
  | nil => simp [splitNL]
  | cons b tl ih =>
      have hb : b ≠ NL := fun e => h (by simp [e])
      have ht : NL ∉ tl := fun e => h (by simp [e])
      simp [splitNL, hb, ih ht]

theorem splitNL_append_of_some {buf line rest : Str} (more : Str)
    (h : splitNL buf = some (line, rest)) :
    splitNL (buf ++ more) = some (line, rest ++ more) := by
  obtain ⟨h1, h2⟩ := splitNL_eq_some h
  rw [h1, List.append_assoc, List.cons_append]
  exact splitNL_append_cons _ h2

theorem firstLine_of_splitNL_some {s line rest : Str} (h : splitNL s = some (line, rest)) :
    firstLine s = line := by
  obtain ⟨h1, h2⟩ := splitNL_eq_some h
  subst h1
  unfold firstLine
  rw [List.takeWhile_append_of_pos]
  · simp [List.takeWhile]
  · intro b hb
    have : b ≠ NL := fun e => h2 (e ▸ hb)
    simpa using this

theorem firstLine_of_splitNL_none {s : Str} (h : splitNL s = none) : firstLine s = s := by
  have hn := splitNL_eq_none.mp h
  unfold firstLine
  rw [List.takeWhile_eq_self_iff]
  intro b hb
  have : b ≠ NL := fun e => hn (e ▸ hb)
  simpa using this

theorem scan_nil (buf : Str) :
    scan buf [] =
      match splitBuffered buf with
      | .token text rest => .token text rest []
      | .tooLong => .stop
      | .more => if buf = [] then .stop else .token (dropCR buf) [] [] := by
  rw [scan]

theorem scan_cons (buf chunk : Str) (conn : Chunks) :
    scan buf (chunk :: conn) =
      match splitBuffered buf with
      | .token text rest => .token text rest (chunk :: conn)
      | .tooLong => .stop
      | .more => scan (buf ++ chunk) conn := by
  rw [scan]

/-- A terminated line that fits the buffer is handed out with one trailing
carriage return dropped, and the bytes after its terminator stay to be read:
in the scanner's buffer or on the connection. -/
theorem scan_line (conn : Chunks) : ∀ (buf line rest : Str),
    splitNL (buf ++ conn.flatten) = some (line, rest) → line.length < MaxScanTokenSize →
    ∃ buf' conn', scan buf conn = .token (dropCR line) buf' conn' ∧
      buf' ++ conn'.flatten = rest := by
  induction conn with
  | nil =>
      intro buf line rest h hlen
      simp only [List.flatten_nil, List.append_nil] at h
      refine ⟨rest, [], ?_, by simp⟩
      rw [scan_nil]
      simp [splitBuffered, h, Nat.not_le.mpr hlen]
  | cons chunk conn ih =>
      intro buf line rest h hlen
      rw [scan_cons]
      cases hb : splitNL buf with
      | some p =>
          obtain ⟨l, r⟩ := p
          have h' := splitNL_append_of_some (chunk :: conn).flatten hb
          rw [h] at h'
          simp only [Option.some.injEq, Prod.mk.injEq] at h'
          obtain ⟨rfl, rfl⟩ := h'
          refine ⟨r, chunk :: conn, ?_, rfl⟩
          simp [splitBuffered, hb, Nat.not_le.mpr hlen]
      | none =>
          have hnl := splitNL_eq_none.mp hb
          obtain ⟨h1, h2⟩ := splitNL_eq_some h
          have hle : buf.length ≤ line.length := by
            have hpre : buf <+: line ++ NL :: rest := by
              rw [← h1]; exact List.prefix_append _ _
            rcases List.prefix_or_prefix_of_prefix hpre
              (List.prefix_append line (NL :: rest)) with hp | hp
            · exact hp.length_le
            · by_contra hlt
              have hlt' : line.length < buf.length := Nat.lt_of_not_le hlt
              have hmem : NL ∈ buf := by
                have hb1 : buf = (line ++ NL :: rest).take buf.length := by
                  obtain ⟨u, hu⟩ := hpre
                  rw [← hu]; simp
                rw [hb1, List.take_append_eq_append_take]
                simp only [List.mem_append]
                right
                have : buf.length - line.length = (buf.length - line.length - 1) + 1 := by omega
                rw [this, List.take_succ_cons]
                simp
              exact hnl hmem
          have hlt : ¬ MaxScanTokenSize ≤ buf.length := by omega
          simp only [splitBuffered, hb, hlt, if_false]
          apply ih (buf ++ chunk) line rest _ hlen
          rw [List.append_assoc]
          simpa using h

/-- A line of `MaxScanTokenSize` bytes or more makes the scan fail. -/
theorem scan_tooLong (conn : Chunks) : ∀ (buf line rest : Str),
    splitNL (buf ++ conn.flatten) = some (line, rest) → MaxScanTokenSize ≤ line.length →
    scan buf conn = .stop := by
  induction conn with
  | nil =>
      intro buf line rest h hlen
      simp only [List.flatten_nil, List.append_nil] at h
      rw [scan_nil]
      simp [splitBuffered, h, hlen]
  | cons chunk conn ih =>
      intro buf line rest h hlen
      rw [scan_cons]
      cases hb : splitNL buf with
      | some p =>
          obtain ⟨l, r⟩ := p
          have h' := splitNL_append_of_some (chunk :: conn).flatten hb
          rw [h] at h'
          simp only [Option.some.injEq, Prod.mk.injEq] at h'
          obtain ⟨rfl, rfl⟩ := h'
          simp [splitBuffered, hb, hlen]
      | none =>
          by_cases hlt : MaxScanTokenSize ≤ buf.length
          · simp [splitBuffered, hb, hlt]
          · simp only [splitBuffered, hb, hlt, if_false]
            apply ih (buf ++ chunk) line rest _ hlen
            rw [List.append_assoc]
            simpa using h

/-- Without any terminator in the rest of the stream, the scan fails on an
overlong or empty rest and else hands out the rest as the last line. -/
theorem scan_eof (conn : Chunks) : ∀ (buf : Str),
    splitNL (buf ++ conn.flatten) = none →
    scan buf conn =
      if MaxScanTokenSize ≤ (buf ++ conn.flatten).length then .stop
      else if buf ++ conn.flatten = [] then .stop
      else .token (dropCR (buf ++ conn.flatten)) [] [] := by
  induction conn with
  | nil =>
      intro buf h
      simp only [List.flatten_nil, List.append_nil] at h ⊢
      rw [scan_nil]
      by_cases hlt : MaxScanTokenSize ≤ buf.length
      · simp [splitBuffered, h, hlt]
      · simp [splitBuffered, h, hlt]
  | cons chunk conn ih =>
      intro buf h
      rw [scan_cons]
      have hnl := splitNL_eq_none.mp h
      have hb : splitNL buf = none := splitNL_eq_none.mpr (fun hm => hnl (by simp [hm]))
      by_cases hlt : MaxScanTokenSize ≤ buf.length
      · have : MaxScanTokenSize ≤ (buf ++ (chunk :: conn).flatten).length := by
          simp only [List.length_append]; omega
        simp only [splitBuffered, hb, hlt, this, if_true]
      · simp only [splitBuffered, hb, hlt, if_false]
        have h2 : splitNL (buf ++ chunk ++ conn.flatten) = none := by
          rw [List.append_assoc]; simpa using h
        rw [ih (buf ++ chunk) h2]
        simp [List.append_assoc]

/-- Every way `scan` hands out a line: a terminated line that fits the buffer,
or the unterminated rest of the stream. -/
theorem scan_token_cases {buf : Str} {conn : Chunks} {t b : Str} {c : Chunks}
    (h : scan buf conn = .token t b c) :
    (∃ line rest, splitNL (buf ++ conn.flatten) = some (line, rest) ∧
        line.length < MaxScanTokenSize ∧ t = dropCR line ∧ b ++ c.flatten = rest) ∨
    (splitNL (buf ++ conn.flatten) = none ∧ buf ++ conn.flatten ≠ [] ∧
        (buf ++ conn.flatten).length < MaxScanTokenSize ∧
        t = dropCR (buf ++ conn.flatten) ∧ b = [] ∧ c = []) := by
  cases hs : splitNL (buf ++ conn.flatten) with
  | some p =>
      obtain ⟨line, rest⟩ := p
      left
      by_cases hlen : MaxScanTokenSize ≤ line.length
      · rw [scan_tooLong conn buf line rest hs hlen] at h
        cases h
      · have hlt : line.length < MaxScanTokenSize := Nat.lt_of_not_le hlen
        obtain ⟨b', c', h1, h2⟩ := scan_line conn buf line rest hs hlt
        rw [h1] at h
        simp only [ScanResult.token.injEq] at h
        obtain ⟨rfl, rfl, rfl⟩ := h
        exact ⟨line, rest, rfl, hlt, rfl, h2⟩
  | none =>
      right
      rw [scan_eof conn buf hs] at h
      by_cases hlen : MaxScanTokenSize ≤ (buf ++ conn.flatten).length
      · simp only [hlen, if_true] at h
        cases h
      · by_cases he : buf ++ conn.flatten = []
        · simp only [hlen, he, if_true, if_false] at h
          cases h
        · simp only [hlen, he, if_false, ScanResult.token.injEq] at h
          obtain ⟨rfl, rfl, rfl⟩ := h
          exact ⟨rfl, he, Nat.lt_of_not_le hlen, rfl, rfl, rfl⟩

/-- The text `scan` hands out is the first line of what is still to be read,
with one trailing carriage return dropped. -/
theorem scan_text {buf : Str} {conn : Chunks} {t b : Str} {c : Chunks}
    (h : scan buf conn = .token t b c) :
    t = dropCR (firstLine (buf ++ conn.flatten)) := by
  rcases scan_token_cases h with ⟨line, rest, hs, _, ht, _⟩ | ⟨hs, _, _, ht, _, _⟩
  · rw [firstLine_of_splitNL_some hs]; exact ht
  · rw [firstLine_of_splitNL_none hs]; exact ht

/-- Every successful `scan` takes at least one byte out of what is still to be read. -/
theorem scan_pending {buf : Str} {conn : Chunks} {t b : Str} {c : Chunks}
    (h : scan buf conn = .token t b c) :
    pending b c < pending buf conn := by
  rcases scan_token_cases h with ⟨line, rest, hs, _, _, hb⟩ | ⟨_, hne, _, _, hb, hc⟩
  · obtain ⟨h1, _⟩ := splitNL_eq_some hs
    have e1 : pending b c = rest.length := by
      unfold pending; rw [← hb]; simp
    have e2 : pending buf conn = (line ++ NL :: rest).length := by
      unfold pending; rw [← h1]; simp
    rw [e1, e2]
    simp
    omega
  · subst hb; subst hc
    have : 0 < (buf ++ conn.flatten).length := List.length_pos.mpr hne
    unfold pending
    simp only [List.length_append] at this
    simpa using this

/-- With more fuel than bytes still to be read, the loop of `handleConnection`
comes to its end. -/
theorem handleLoop_isSome (env : ServerEnv) (baseDir : Str) :
    ∀ (fuel : Nat) (buf : Str) (conn : Chunks) (st : Handled),
      pending buf conn < fuel → ∃ r, handleLoop env baseDir fuel buf conn st = some r := by
  intro fuel
  induction fuel with
  | zero => intro buf conn st h; omega
  | succ fuel ih =>
      intro buf conn st h
      rw [handleLoop]
      cases hs : scan buf conn with
      | stop => exact ⟨_, rfl⟩
      | token line b c =>
          have hp := scan_pending hs
          simp only
          split
          · exact ⟨_, rfl⟩
          · split
            · exact ih _ _ _ (by omega)
            · split
              · exact ⟨_, rfl⟩
              · split
                · exact ⟨_, rfl⟩
                · apply ih
                  have : pending b [] ≤ pending b c := by
                    simp [pending]
                  omega

/-- The function `handleConnection` always returns. -/
theorem handleConnection_returns (env : ServerEnv) (sharedKey : Str) (conn : Chunks)
    (baseDir compress : Str) (checksum : Bool) (fs : FS) :
    ∃ r, handleConnection env sharedKey conn baseDir compress checksum fs = some r := by
  unfold handleConnection
  cases hs : scan [] conn with
  | stop => exact ⟨_, rfl⟩
  | token k b c =>
      simp only
      split
      · exact ⟨_, rfl⟩
      · exact handleLoop_isSome env baseDir _ _ _ _ (Nat.lt_succ_self _)

/-! ### `handleConnection`: the key line -/

theorem scan_of_buffered_token {buf t r : Str} (conn : Chunks)
    (h : splitBuffered buf = .token t r) : scan buf conn = .token t r conn := by
  cases conn with
  | nil => rw [scan_nil, h]
  | cons c cs => rw [scan_cons, h]

theorem dropCR_of_lineSafe {s : Str} (h : LineSafe s) : dropCR s = s := by
  unfold dropCR
  simp [h.2.1]

theorem scan_nothing_left {buf : Str} {conn : Chunks} (h : buf ++ conn.flatten = []) :
    scan buf conn = .stop := by
  have hs : splitNL (buf ++ conn.flatten) = none := by rw [h]; rfl
  rw [scan_eof conn buf hs, h]
  simp

/-- C1, as stated, fails: the key line `K1\r` differs from the key `K1`, yet the
handler answers the ping and stores the file that follows. -/
theorem handleConnection_accepts_key_line_with_cr :
    firstLine ([lit "K1\r\n__ping__\na.txt\n", lit "hello"] : Chunks).flatten ≠ lit "K1" ∧
    handleConnection okEnv (lit "K1") [lit "K1\r\n__ping__\na.txt\n", lit "hello"]
        (lit "/out") (lit "none") false FS.empty =
      some { fs := { files := [(lit "/out/a.txt", lit "hello")], dirs := [lit "/out"] },
             written := lit "__pong__\n",
             log := [ServerLog.receiving (lit "a.txt"), ServerLog.saved (lit "a.txt")],
             closed := true } := by
  decide

/-- C1 (amended): for every key and every byte stream a peer sends, cut into
reads in any way: when the first line of the stream with one trailing carriage
return dropped (the text `scanner.Text()` yields) differs from the key, the
handler returns with the file system as it was, nothing written back, and the
connection closed. -/
theorem handleConnection_rejects_other_key (env : ServerEnv) (sharedKey : Str) (conn : Chunks)
    (baseDir compress : Str) (checksum : Bool) (fs : FS)
    (hkey : dropCR (firstLine conn.flatten) ≠ sharedKey) :
    ∃ r, handleConnection env sharedKey conn baseDir compress checksum fs = some r ∧
      r.fs = fs ∧ r.written = [] ∧ r.closed = true := by
  unfold handleConnection
  cases hs : scan [] conn with
  | stop => exact ⟨_, rfl, rfl, rfl, rfl⟩
  | token k b c =>
      have hk : k ≠ sharedKey := by
        have := scan_text hs
        simp only [List.nil_append] at this
        rw [this]; exact hkey
      simp only [hk, ne_eq, not_false_eq_true, if_true]
      exact ⟨_, rfl, rfl, rfl, rfl⟩

theorem handleConnection_rejects_other_key_witness :
    dropCR (firstLine ([lit "K2\na.txt\n", lit "hello"] : Chunks).flatten) ≠ lit "K1" ∧
    ∃ r, handleConnection okEnv (lit "K1") [lit "K2\na.txt\n", lit "hello"] (lit "/out")
        (lit "none") false FS.empty = some r ∧
      r.fs = FS.empty ∧ r.written = [] ∧ r.closed = true :=
  ⟨by decide, handleConnection_rejects_other_key okEnv (lit "K1")
    [lit "K2\na.txt\n", lit "hello"] (lit "/out") (lit "none") false FS.empty (by decide)⟩

/-! ### `handleConnection` and `testConnection`: ping and pong -/

theorem pingMessage_ne_closeMessage : PingMessage ≠ CloseMessage := by decide

theorem splitBuffered_line {line : Str} (rest : Str) (h : LineSafe line) :
    splitBuffered (line ++ NL :: rest) = .token line rest := by
  unfold splitBuffered
  rw [splitNL_append_cons rest h.1]
  simp [Nat.not_le.mpr h.2.2, dropCR_of_lineSafe h]

theorem lineSafe_pingMessage : LineSafe PingMessage := by decide

theorem lineSafe_pongMessage : LineSafe PongMessage := by decide

/-- The handler on a key line followed by a ping line, in any cut into reads. -/
theorem handleConnection_ping (env : ServerEnv) (sharedKey : Str) (conn : Chunks)
    (baseDir compress : Str) (checksum : Bool) (fs : FS) (hkey : LineSafe sharedKey)
    (hconn : conn.flatten = sharedKey ++ [NL] ++ PingMessage ++ [NL]) :
    ∃ r, handleConnection env sharedKey conn baseDir compress checksum fs = some r ∧
      r.written = PongMessage ++ [NL] ∧ r.fs = fs ∧ r.closed = true := by
  have hs : splitNL ([] ++ conn.flatten) = some (sharedKey, PingMessage ++ [NL]) := by
    rw [List.nil_append, hconn]
    simpa using splitNL_append_cons (PingMessage ++ [NL]) hkey.1
  obtain ⟨b, c, h1, h2⟩ := scan_line conn [] sharedKey _ hs hkey.2.2
  rw [dropCR_of_lineSafe hkey] at h1
  have hs2 : splitNL (b ++ c.flatten) = some (PingMessage, []) := by
    rw [h2]
    simpa using splitNL_append_cons [] lineSafe_pingMessage.1
  obtain ⟨b2, c2, h3, h4⟩ := scan_line c b PingMessage [] hs2 lineSafe_pingMessage.2.2
  rw [dropCR_of_lineSafe lineSafe_pingMessage] at h3
  have h5 : scan b2 c2 = .stop := scan_nothing_left h4
  have hp : pending b c = 7 + 1 + 1 := by
    unfold pending
    rw [← List.length_append, h2]
    decide
  unfold handleConnection
  rw [h1]
  simp only [ne_eq, not_true_eq_false, if_false, hp]
  rw [handleLoop, h3]
  simp only [pingMessage_ne_closeMessage, if_false, if_true]
  rw [handleLoop, h5]
  exact ⟨_, rfl, by simp, rfl, rfl⟩

/-- The probe against a server with the same line-safe key returns true. -/
theorem testConnection_serverPeer (env : ServerEnv) (sharedKey baseDir compress : Str)
    (checksum : Bool) (fs : FS) (deliver back : Str → Chunks)
    (hkey : LineSafe sharedKey) (hdeliver : Chunking deliver) (hback : Chunking back) :
    testConnection sharedKey
      (some (serverPeer env sharedKey baseDir compress checksum fs deliver back)) = true := by
  obtain ⟨r, hr, hw, _, _⟩ := handleConnection_ping env sharedKey
    (deliver (sharedKey ++ [NL] ++ PingMessage ++ [NL])) baseDir compress checksum fs hkey
    (hdeliver _)
  have hs : splitNL ([] ++ (back (PongMessage ++ [NL])).flatten) = some (PongMessage, []) := by
    rw [List.nil_append, hback]
    simpa using splitNL_append_cons [] lineSafe_pongMessage.1
  obtain ⟨b, c, h1, _⟩ := scan_line _ [] PongMessage [] hs lineSafe_pongMessage.2.2
  rw [dropCR_of_lineSafe lineSafe_pongMessage] at h1
  simp only [testConnection, serverPeer, hr, hw, h1, decide_True]

/-- C3, as stated, fails at a key that ends in a carriage return: the scanner
drops it from the key line, the handler rejects the connection without a
reply, and the probe returns false. -/
theorem ping_unanswered_for_key_ending_in_cr :
    handleConnection okEnv (lit "k\r") [lit "k\r" ++ [NL] ++ PingMessage ++ [NL]]
        (lit "/out") (lit "none") false FS.empty =
      some { fs := FS.empty, written := [], log := [ServerLog.keyRejected (lit "k")],
             closed := true } ∧
    testConnection (lit "k\r")
        (some (serverPeer okEnv (lit "k\r") (lit "/out") (lit "none") false FS.empty
          oneChunk oneChunk)) = false := by
  decide

/-- C3 (amended): for every key that is one line of the protocol (no line
terminator inside, no carriage return at its end, shorter than 64 KiB): when a
peer sends exactly the key line and the ping line, in any cut into reads, the
handler writes back exactly the pong line, leaves the file system as it was and
returns at end of stream; when more input follows the ping line, the loop goes
on reading it with an empty buffer; and the probe `testConnection` returns true
against a server with the same key. -/
theorem ping_answered_with_pong (env : ServerEnv) (sharedKey baseDir compress : Str)
    (checksum : Bool) (fs : FS) (deliver back : Str → Chunks)
    (hkey : LineSafe sharedKey) (hdeliver : Chunking deliver) (hback : Chunking back) :
    (∀ conn : Chunks, conn.flatten = sharedKey ++ [NL] ++ PingMessage ++ [NL] →
      ∃ r, handleConnection env sharedKey conn baseDir compress checksum fs = some r ∧
        r.written = PongMessage ++ [NL] ∧ r.fs = fs ∧ r.closed = true) ∧
    (∀ more : Chunks,
      handleConnection env sharedKey ((sharedKey ++ [NL] ++ PingMessage ++ [NL]) :: more)
          baseDir compress checksum fs =
        handleLoop env baseDir (pending [] more + 9) [] more
          { fs := fs, written := PongMessage ++ [NL],
            log := unsupportedLog compress checksum, closed := false }) ∧
    testConnection sharedKey
      (some (serverPeer env sharedKey baseDir compress checksum fs deliver back)) = true := by
  refine ⟨fun conn hconn =>
    handleConnection_ping env sharedKey conn baseDir compress checksum fs hkey hconn, ?_, ?_⟩
  · intro more
    have e1 : sharedKey ++ [NL] ++ PingMessage ++ [NL] =
        sharedKey ++ NL :: (PingMessage ++ [NL]) := by simp
    have h1 : scan [] ((sharedKey ++ [NL] ++ PingMessage ++ [NL]) :: more) =
        .token sharedKey (PingMessage ++ [NL]) more := by
      rw [scan_cons]
      have : splitBuffered [] = .more := by decide
      rw [this]
      simp only [List.nil_append]
      rw [e1]
      exact scan_of_buffered_token more (splitBuffered_line _ hkey)
    have h2 : scan (PingMessage ++ [NL]) more = .token PingMessage [] more := by
      have := scan_of_buffered_token more (splitBuffered_line [] lineSafe_pingMessage)
      simpa using this
    have hp : pending (PingMessage ++ [NL]) more = pending [] more + 8 + 1 := by
      unfold pending
      have : (PingMessage ++ [NL]).length = 9 := by decide
      rw [this]
      simp only [List.length_nil]
      omega
    unfold handleConnection
    rw [h1]
    simp only [ne_eq, not_true_eq_false, if_false, hp]
    rw [handleLoop, h2]
    simp only [pingMessage_ne_closeMessage, if_false, if_true, List.nil_append]
  · exact testConnection_serverPeer env sharedKey baseDir compress checksum fs deliver back
      hkey hdeliver hback

theorem ping_answered_with_pong_witness :
    LineSafe (lit "K1") ∧ Chunking oneChunk ∧
    ((∀ conn : Chunks, conn.flatten = lit "K1" ++ [NL] ++ PingMessage ++ [NL] →
      ∃ r, handleConnection okEnv (lit "K1") conn (lit "/out") (lit "none") false FS.empty =
          some r ∧
        r.written = PongMessage ++ [NL] ∧ r.fs = FS.empty ∧ r.closed = true) ∧
    (∀ more : Chunks,
      handleConnection okEnv (lit "K1") ((lit "K1" ++ [NL] ++ PingMessage ++ [NL]) :: more)
          (lit "/out") (lit "none") false FS.empty =
        handleLoop okEnv (lit "/out") (pending [] more + 9) [] more
          { fs := FS.empty, written := PongMessage ++ [NL],
            log := unsupportedLog (lit "none") false, closed := false }) ∧
    testConnection (lit "K1")
      (some (serverPeer okEnv (lit "K1") (lit "/out") (lit "none") false FS.empty
        oneChunk oneChunk)) = true) :=
  ⟨by decide, fun _ => by simp [oneChunk],
    ping_answered_with_pong okEnv (lit "K1") (lit "/out") (lit "none") false FS.empty
      oneChunk oneChunk (by decide) (fun _ => by simp [oneChunk]) (fun _ => by simp [oneChunk])⟩

/-! ### The walker -/

theorem beforeError_append (a b : List WalkEvent) :
    beforeError (a ++ b) =
      beforeError a ++ (if (firstError a).isNone then beforeError b else []) := by
  induction a with
  | nil => simp [beforeError, firstError]
  | cons e rest ih =>
      cases e with
      | entry p d => simp [beforeError, firstError, ih]
      | failed p e => simp [beforeError, firstError]

theorem firstError_append (a b : List WalkEvent) :
    firstError (a ++ b) = (firstError a).orElse (fun _ => firstError b) := by
  induction a with
  | nil => simp [firstError]
  | cons e rest ih =>
      cases e with
      | entry p d => simp [firstError, ih]
      | failed p e => simp [firstError]

theorem nonDirPaths_append (a b : List WalkEvent) :
    nonDirPaths (a ++ b) = nonDirPaths a ++ nonDirPaths b := by
  induction a with
  | nil => simp [nonDirPaths]
  | cons e rest ih =>
      cases e with
      | entry p d => cases d <;> simp [nonDirPaths, ih]
      | failed p e => simp [nonDirPaths, ih]

theorem jobsAmong_append (dir : Str) (cp : List Str) (a b : List WalkEvent) :
    jobsAmong dir cp (a ++ b) = jobsAmong dir cp a ++ jobsAmong dir cp b := by
  simp [jobsAmong, nonDirPaths_append]

/-- The callback of the walker on a queue that holds `capacity` values and is
never received from: a send completes while there is room. -/
theorem walkerFn_undrained (dir : Str) (cp : List Str) (capacity : Nat) (path : Str)
    (isDir : Bool) (s : List Str) (hs : s.length ≤ capacity) :
    walkerFn dir cp (some capacity) none path (some ⟨isDir⟩) none s =
      if s.length + (jobsAmong dir cp [WalkEvent.entry path isDir]).length ≤ capacity then
        (s ++ jobsAmong dir cp [WalkEvent.entry path isDir], Returned.nil)
      else
        (s ++ (jobsAmong dir cp [WalkEvent.entry path isDir]).take (capacity - s.length),
          Returned.never) := by
  cases isDir
  · by_cases h : relPath dir path ∈ cp
    · simp [walkerFn, jobsAmong, nonDirPaths, h, hs]
    · by_cases hlt : s.length < capacity
      · have : s.length + 1 ≤ capacity := hlt
        simp [walkerFn, jobsAmong, nonDirPaths, h, sendCompletes, hlt, this]
      · have h1 : ¬ s.length + 1 ≤ capacity := by omega
        have h2 : capacity - s.length = 0 := by omega
        simp [walkerFn, jobsAmong, nonDirPaths, h, sendCompletes, hlt, h1, h2]
  · simp [walkerFn, jobsAmong, nonDirPaths, hs]

mutual
/-- The walk with the walker's callback, workers receiving from the queue:
it pushes the jobs among the entries it reaches before the first error, and
returns that error. -/
theorem walkDir_walkerFn (dir : Str) (cp : List Str) :
    ∀ (node : Node) (path : Str) (s : List Str),
      walkDir (walkerFn dir cp none none) path node s =
        (s ++ jobsAmong dir cp (beforeError (node.events path)),
          Returned.ofError (firstError (node.events path)))
  | .regular c, path, s => by
      by_cases h : relPath dir path ∈ cp <;>
        simp [walkDir, walkerFn, sendCompletes, Node.events, beforeError, firstError, jobsAmong,
          nonDirPaths, Returned.ofError, h]
  | .irregular, path, s => by
      by_cases h : relPath dir path ∈ cp <;>
        simp [walkDir, walkerFn, sendCompletes, Node.events, beforeError, firstError, jobsAmong,
          nonDirPaths, Returned.ofError, h]
  | .dir entries readErr, path, s => by
      cases readErr with
      | some re =>
          simp [walkDir, walkerFn, Node.events, beforeError, firstError, jobsAmong, nonDirPaths,
            Returned.ofError]
      | none =>
          have ih := walkEntries_walkerFn dir cp entries path s
          simp [walkDir, walkerFn, Node.events, beforeError, firstError, jobsAmong, nonDirPaths]
          simpa [walkerFn, jobsAmong] using ih
theorem walkEntries_walkerFn (dir : Str) (cp : List Str) :
    ∀ (entries : Entries) (path : Str) (s : List Str),
      walkEntries (walkerFn dir cp none none) path entries s =
        (s ++ jobsAmong dir cp (beforeError (entries.events path)),
          Returned.ofError (firstError (entries.events path)))
  | .nil, path, s => by
      simp [walkEntries, Entries.events, beforeError, firstError, jobsAmong, nonDirPaths,
        Returned.ofError]
  | .cons name node rest, path, s => by
      have ih1 := walkDir_walkerFn dir cp node (joinSlash path name) s
      rw [walkEntries, ih1]
      cases he : firstError (node.events (joinSlash path name)) with
      | some e =>
          simp [Entries.events, beforeError_append, firstError_append, he, Returned.ofError]
      | none =>
          have ih2 := walkEntries_walkerFn dir cp rest path
            (s ++ jobsAmong dir cp (beforeError (node.events (joinSlash path name))))
          simp only [Returned.ofError, ih2]
          simp [Entries.events, beforeError_append, firstError_append, he, jobsAmong_append]
end

mutual
/-- The walk with the walker's callback on a queue that is never received
from: the jobs are pushed while there is room, and the send that finds the
queue full does not return. -/
theorem walkDir_undrained (dir : Str) (cp : List Str) (capacity : Nat) :
    ∀ (node : Node) (path : Str) (s : List Str), s.length ≤ capacity →
      walkDir (walkerFn dir cp (some capacity) none) path node s =
        walkOutcome (some capacity) s (jobsAmong dir cp (beforeError (node.events path)))
          (firstError (node.events path))
  | .regular c, path, s, hs => by
      rw [walkDir, walkerFn_undrained dir cp capacity path false s hs]
      simp only [walkOutcome, Node.events, beforeError, firstError, Returned.ofError]
  | .irregular, path, s, hs => by
      rw [walkDir, walkerFn_undrained dir cp capacity path false s hs]
      simp only [walkOutcome, Node.events, beforeError, firstError, Returned.ofError]
  | .dir entries readErr, path, s, hs => by
      cases readErr with
      | some re =>
          simp [walkDir, walkerFn, walkOutcome, Node.events, beforeError, firstError, jobsAmong,
            nonDirPaths, Returned.ofError, hs]
      | none =>
          have ih := walkDir_entries_undrained dir cp capacity entries path s hs
          simp [walkDir, walkerFn, Node.events, beforeError, firstError, jobsAmong, nonDirPaths]
          simpa [walkerFn, jobsAmong] using ih
theorem walkDir_entries_undrained (dir : Str) (cp : List Str) (capacity : Nat) :
    ∀ (entries : Entries) (path : Str) (s : List Str), s.length ≤ capacity →
      walkEntries (walkerFn dir cp (some capacity) none) path entries s =
        walkOutcome (some capacity) s (jobsAmong dir cp (beforeError (entries.events path)))
          (firstError (entries.events path))
  | .nil, path, s, hs => by
      simp [walkEntries, walkOutcome, Entries.events, beforeError, firstError, jobsAmong,
        nonDirPaths, Returned.ofError, hs]
  | .cons name node rest, path, s, hs => by
      have ih1 := walkDir_undrained dir cp capacity node (joinSlash path name) s hs
      rw [walkEntries, ih1]
      by_cases hroom : s.length +
          (jobsAmong dir cp (beforeError (node.events (joinSlash path name)))).length ≤ capacity
      · cases he : firstError (node.events (joinSlash path name)) with
        | some e =>
            simp [walkOutcome, hroom, Entries.events, beforeError_append, firstError_append, he,
              Returned.ofError]
        | none =>
            have ih2 := walkDir_entries_undrained dir cp capacity rest path
              (s ++ jobsAmong dir cp (beforeError (node.events (joinSlash path name))))
              (by simpa using hroom)
            simp only [walkOutcome, hroom, if_true, Returned.ofError, ih2]
            simp only [Entries.events, beforeError_append, firstError_append, he,
              Option.isNone_none, if_true, jobsAmong_append, List.length_append,
              Option.orElse, List.append_assoc]
            by_cases hall : s.length +
                ((jobsAmong dir cp (beforeError (node.events (joinSlash path name)))).length +
                  (jobsAmong dir cp (beforeError (rest.events path))).length) ≤ capacity
            · have h' : s.length +
                  (jobsAmong dir cp (beforeError (node.events (joinSlash path name)))).length +
                  (jobsAmong dir cp (beforeError (rest.events path))).length ≤ capacity := by
                omega
              simp [hall, h']
            · have h' : ¬ s.length +
                  (jobsAmong dir cp (beforeError (node.events (joinSlash path name)))).length +
                  (jobsAmong dir cp (beforeError (rest.events path))).length ≤ capacity := by
                omega
              simp only [hall, h', if_false]
              have hfit : List.take (capacity - s.length)
                  (jobsAmong dir cp (beforeError (node.events (joinSlash path name)))) =
                  jobsAmong dir cp (beforeError (node.events (joinSlash path name))) :=
                List.take_of_length_le (by omega)
              rw [List.take_append_eq_append_take, hfit, Nat.sub_sub]
      · have hall : ¬ s.length +
            (jobsAmong dir cp (beforeError (Entries.events (.cons name node rest) path))).length
              ≤ capacity := by
          simp only [Entries.events, beforeError_append, jobsAmong_append, List.length_append]
          omega
        simp only [walkOutcome, hroom, hall, if_false]
        simp only [Entries.events, beforeError_append, jobsAmong_append]
        rw [List.take_append_of_le_length (by omega)]
end

mutual
theorem nodeEvents_of_readable : ∀ (node : Node) (path : Str), node.readable = true →
    firstError (node.events path) = none ∧ beforeError (node.events path) = node.events path
  | .regular _, path, _ => by simp [Node.events, firstError, beforeError]
  | .irregular, path, _ => by simp [Node.events, firstError, beforeError]
  | .dir entries readErr, path, h => by
      simp only [Node.readable, Bool.and_eq_true, Option.isNone_iff_eq_none] at h
      obtain ⟨rfl, h2⟩ := h
      have ih := entriesEvents_of_readable entries path h2
      simp [Node.events, firstError, beforeError, ih.1, ih.2]
theorem entriesEvents_of_readable : ∀ (entries : Entries) (path : Str),
    entries.readable = true →
    firstError (entries.events path) = none ∧
      beforeError (entries.events path) = entries.events path
  | .nil, path, _ => by simp [Entries.events, firstError, beforeError]
  | .cons name node rest, path, h => by
      simp only [Entries.readable, Bool.and_eq_true] at h
      have ih1 := nodeEvents_of_readable node (joinSlash path name) h.1
      have ih2 := entriesEvents_of_readable rest path h.2
      simp [Entries.events, firstError_append, beforeError_append, ih1.1, ih1.2, ih2.1, ih2.2]
end

mutual
theorem nodeRegularFiles_subset_nonDirPaths : ∀ (node : Node) (path : Str) (p c : Str),
    (p, c) ∈ node.regularFiles path → p ∈ nonDirPaths (node.events path)
  | .regular _, path, p, c, h => by
      simp only [Node.regularFiles, List.mem_singleton, Prod.mk.injEq] at h
      simp [Node.events, nonDirPaths, h.1]
  | .irregular, path, p, c, h => by simp [Node.regularFiles] at h
  | .dir entries readErr, path, p, c, h => by
      simp only [Node.regularFiles] at h
      have ih := entriesRegularFiles_subset_nonDirPaths entries path p c h
      cases readErr <;> simp [Node.events, nonDirPaths, ih]
theorem entriesRegularFiles_subset_nonDirPaths : ∀ (entries : Entries) (path : Str) (p c : Str),
    (p, c) ∈ entries.regularFiles path → p ∈ nonDirPaths (entries.events path)
  | .nil, path, p, c, h => by simp [Entries.regularFiles] at h
  | .cons name node rest, path, p, c, h => by
      simp only [Entries.regularFiles, List.mem_append] at h
      rw [Entries.events, nonDirPaths_append, List.mem_append]
      rcases h with h | h
      · exact Or.inl (nodeRegularFiles_subset_nonDirPaths node _ p c h)
      · exact Or.inr (entriesRegularFiles_subset_nonDirPaths rest path p c h)
end

/-- The walker next to at least one worker: every send completes and the
goroutine reaches its log line and its close. -/
theorem walker_eq (dir : Str) (t : Node) (cp : List Str) (workers : Int) (exit : Option Nat)
    (hworkers : 0 < workers) :
    walker dir (.ok t) cp workers exit =
      { pushed := jobsAmong dir cp (beforeError (t.events dir)),
        logged := (firstError (t.events dir)).toList,
        closes := 1 } := by
  simp only [walker, hworkers, if_true, WalkDir, walkDir_walkerFn, List.nil_append]
  cases firstError (t.events dir) <;> simp [Returned.ofError, sendCompletes]

/-- The walker without a worker, when the process outlives it: up to
`TotalFiles` jobs fit the queue; with more jobs before the first error the
goroutine waits at the next send for good and neither logs nor closes. -/
theorem walker_without_worker (dir : Str) (t : Node) (cp : List Str) (workers : Int)
    (hworkers : workers ≤ 0) :
    walker dir (.ok t) cp workers none =
      if (jobsAmong dir cp (beforeError (t.events dir))).length ≤ TotalFiles then
        { pushed := jobsAmong dir cp (beforeError (t.events dir)),
          logged := (firstError (t.events dir)).toList,
          closes := 1 }
      else
        { pushed := (jobsAmong dir cp (beforeError (t.events dir))).take TotalFiles,
          logged := [],
          closes := 0 } := by
  have hw : ¬ 0 < workers := by omega
  simp only [walker, hw, if_false, WalkDir]
  rw [walkDir_undrained dir cp TotalFiles t dir [] (Nat.zero_le _)]
  simp only [walkOutcome, List.length_nil, Nat.zero_add, List.nil_append, Nat.sub_zero]
  by_cases hfit : (jobsAmong dir cp (beforeError (t.events dir))).length ≤ TotalFiles
  · simp only [hfit, if_true]
    cases firstError (t.events dir) <;> simp [Returned.ofError, sendCompletes]
  · simp only [hfit, if_false]

/-- The walker without a worker when the process ends after one step of the
goroutine: one job of the scenario is in the queue, nothing is logged, the
queue is not closed. -/
theorem walker_cut_off_by_exit :
    walker (lit "/src") (.ok scenarioTree) [] 0 (some 1) =
      { pushed := [lit "/src/a.txt"], logged := [], closes := 0 } := by
  decide

/-- C10, as stated, fails: the directory `a` cannot be read, the regular file
`b.txt` lies outside of it and is not skipped, yet the walker, next to two
workers, enqueues nothing. -/
theorem walker_drops_file_outside_unreadable_dir :
    walker (lit "/src") (.ok treeWithUnreadableDir) [] 2 none =
      { pushed := [], logged := [lit "permission denied"], closes := 1 } ∧
    treeWithUnreadableDir.regularFiles (lit "/src") = [(lit "/src/b.txt", lit "x")] ∧
    ¬ (lit "/src/a/" <+: lit "/src/b.txt") := by
  decide

/-- C10 (amended): for every source tree, whether or not its walk reports an
error, and at least one worker receiving from the job queue: the walker
enqueues exactly the entries that are no directories, are not in the
checkpoint set, and are reached before the first error of the walk; it logs
that error, enqueues nothing the walk would reach after it, inside or outside
the failing directory, and closes the job queue exactly once. When `os.Lstat`
of the root fails it enqueues nothing, logs, and closes once. -/
theorem walker_stops_at_first_error (dir : Str) (t : Node) (checkpoint : List Str)
    (e : IOError) (workers : Int) (exit : Option Nat) (hworkers : 0 < workers) :
    walker dir (.ok t) checkpoint workers exit =
      { pushed := jobsAmong dir checkpoint (beforeError (t.events dir)),
        logged := (firstError (t.events dir)).toList,
        closes := 1 } ∧
    walker dir (.error e) checkpoint workers exit =
      { pushed := [], logged := [e], closes := 1 } := by
  refine ⟨walker_eq dir t checkpoint workers exit hworkers, ?_⟩
  simp [walker, hworkers, WalkDir, walkerFn, sendCompletes]

theorem walker_stops_at_first_error_witness :
    (0 : Int) < 2 ∧
    walker (lit "/src") (.ok treeWithUnreadableDir) [] 2 none =
      { pushed := jobsAmong (lit "/src") []
          (beforeError (treeWithUnreadableDir.events (lit "/src"))),
        logged := (firstError (treeWithUnreadableDir.events (lit "/src"))).toList,
        closes := 1 } ∧
    walker (lit "/src") (.error (lit "no such file or directory")) [] 2 none =
      { pushed := [], logged := [lit "no such file or directory"], closes := 1 } :=
  ⟨by decide, walker_stops_at_first_error (lit "/src") treeWithUnreadableDir []
    (lit "no such file or directory") 2 none (by decide)⟩

/-- C7, as stated, fails: the symbolic link `l` is no regular file, yet the
walker, next to two workers, enqueues it after the regular file `a.txt`. -/
theorem walker_enqueues_symlink :
    (walker (lit "/src") (.ok treeWithLink) (loadCheckpoint false none) 2 none).pushed =
      [lit "/src/a.txt", lit "/src/l"] ∧
    treeWithLink.regularFiles (lit "/src") = [(lit "/src/a.txt", lit "hello")] := by
  decide

/-- C7 (amended): for every source tree whose directories can all be read,
every resume flag and every checkpoint file, and at least one worker receiving
from the job queue: the walker pushes exactly one job for every entry of the
tree that is no directory (regular file or not) and is not skipped, in walk
order, and nothing else, and then closes the queue; an entry is skipped exactly
when resume is enabled and its path relative to the root is a line of the
checkpoint file. In particular every regular file that is not skipped is
enqueued. -/
theorem walker_enqueues_unskipped_entries (dir : Str) (t : Node) (resume : Bool)
    (file : Option Chunks) (workers : Int) (exit : Option Nat)
    (hread : t.readable = true) (hworkers : 0 < workers) :
    (walker dir (.ok t) (loadCheckpoint resume file) workers exit).pushed =
      (nonDirPaths (t.events dir)).filter
        (fun p => !(resume && decide (relPath dir p ∈ loadCheckpoint true file))) ∧
    (walker dir (.ok t) (loadCheckpoint resume file) workers exit).closes = 1 ∧
    (∀ p c, (p, c) ∈ t.regularFiles dir →
      ¬ (resume = true ∧ relPath dir p ∈ loadCheckpoint true file) →
      p ∈ (walker dir (.ok t) (loadCheckpoint resume file) workers exit).pushed) := by
  have hev := nodeEvents_of_readable t dir hread
  have hpushed : (walker dir (.ok t) (loadCheckpoint resume file) workers exit).pushed =
      (nonDirPaths (t.events dir)).filter
        (fun p => !(resume && decide (relPath dir p ∈ loadCheckpoint true file))) := by
    rw [walker_eq _ _ _ _ _ hworkers, hev.2]
    cases resume
    · simp [jobsAmong, loadCheckpoint]
    · simp [jobsAmong]
  refine ⟨hpushed, by rw [walker_eq _ _ _ _ _ hworkers], ?_⟩
  intro p c hp hskip
  rw [hpushed, List.mem_filter]
  refine ⟨nodeRegularFiles_subset_nonDirPaths t dir p c hp, ?_⟩
  cases resume
  · simp
  · simpa using hskip

theorem walker_enqueues_unskipped_entries_witness :
    scenarioTree.readable = true ∧ (0 : Int) < 2 ∧
    (walker (lit "/src") (.ok scenarioTree)
        (loadCheckpoint true (some [lit "a.txt\n"])) 2 none).pushed =
      (nonDirPaths (scenarioTree.events (lit "/src"))).filter
        (fun p => !(true && decide (relPath (lit "/src") p ∈
          loadCheckpoint true (some [lit "a.txt\n"])))) ∧
    (walker (lit "/src") (.ok scenarioTree)
        (loadCheckpoint true (some [lit "a.txt\n"])) 2 none).closes = 1 ∧
    (∀ p c, (p, c) ∈ scenarioTree.regularFiles (lit "/src") →
      ¬ (true = true ∧ relPath (lit "/src") p ∈ loadCheckpoint true (some [lit "a.txt\n"])) →
      p ∈ (walker (lit "/src") (.ok scenarioTree)
        (loadCheckpoint true (some [lit "a.txt\n"])) 2 none).pushed) :=
  ⟨by decide, by decide, walker_enqueues_unskipped_entries (lit "/src") scenarioTree true
    (some [lit "a.txt\n"]) 2 none (by decide) (by decide)⟩

/-! ### The scenario of the spec and other runs, evaluated -/

/-- C5, failing input: the connection is reset right after the dial, so both
header writes fail; the source file is empty, so `io.Copy` has nothing to write
and returns nil. `sendFile` returns nil with nothing on the wire, and the
worker appends the checkpoint entry and counts the file. -/
theorem worker_checkpoints_after_failed_header_writes :
    (sendFile (lit "K1") (lit "/src/empty.txt") (lit "/src") (resetEnv []).send).ok = true ∧
    (sendFile (lit "K1") (lit "/src/empty.txt") (lit "/src") (resetEnv []).send).wire = [] ∧
    (workerTurn (lit "K1") (lit "/src") scenarioServer oneChunk (resetEnv [])
        (lit "/src/empty.txt") World.fresh).checkpointLog = some (lit "empty.txt\n") ∧
    (workerTurn (lit "K1") (lit "/src") scenarioServer oneChunk (resetEnv [])
        (lit "/src/empty.txt") World.fresh).processed = 1 ∧
    (workerTurn (lit "K1") (lit "/src") scenarioServer oneChunk (resetEnv [])
        (lit "/src/empty.txt") World.fresh).serverFs = FS.empty := by
  decide

/-- C2, failing input: the spec's scenario, each connection's bytes arriving
at the server in one read. Every `sendFile` succeeds and both files are
checkpointed, yet `/out/a.txt` and `/out/b/c.txt` are empty: the scanner had
taken the bodies into its buffer, `io.Copy` found the connection at end of
stream, and the loop then took each body for a path. -/
theorem scenario_in_one_read_loses_contents :
    scenarioTree.regularFiles (lit "/src") =
      [(lit "/src/a.txt", lit "hello"), (lit "/src/b/c.txt", lit "0123456789")] ∧
    (startClient (scenarioClient false) (.ok scenarioTree) scenarioServer
        (calmNet (scenarioTree.open (lit "/src"))) World.fresh) =
      { fatal := false,
        queued := [lit "/src/a.txt", lit "/src/b/c.txt"],
        world :=
          { checkpointLog := some (lit "a.txt\nb/c.txt\n"),
            processed := 2, totalBytes := 15,
            taken := [lit "/src/a.txt", lit "/src/b/c.txt"],
            failed := [],
            serverFs :=
              { files := [(lit "/out/0123456789", []), (lit "/out/b/c.txt", []),
                          (lit "/out/hello", []), (lit "/out/a.txt", [])],
                dirs := [lit "/out/b", lit "/out"] } } } := by
  decide

/-- The spec's scenario when every line arrives in a read of its own: both
files arrive with their content. -/
theorem scenario_line_by_line_keeps_contents :
    (startClient (scenarioClient false) (.ok scenarioTree) scenarioServer
        (lineNet (scenarioTree.open (lit "/src"))) World.fresh) =
      { fatal := false,
        queued := [lit "/src/a.txt", lit "/src/b/c.txt"],
        world :=
          { checkpointLog := some (lit "a.txt\nb/c.txt\n"),
            processed := 2, totalBytes := 15,
            taken := [lit "/src/a.txt", lit "/src/b/c.txt"],
            failed := [],
            serverFs :=
              { files := [(lit "/out/b/c.txt", lit "0123456789"),
                          (lit "/out/a.txt", lit "hello")],
                dirs := [lit "/out/b", lit "/out"] } } } := by
  decide

/-- C6, as stated, fails: no file can be created at the server, every line
arrives in a read of its own, every `sendFile` returns nil; both paths are
recorded in the checkpoint log and no destination file exists. -/
theorem checkpoint_without_destination_file :
    (startClient (scenarioClient false) (.ok scenarioTree) readOnlyServer
        (lineNet (scenarioTree.open (lit "/src"))) World.fresh).world.checkpointLog =
      some (lit "a.txt\nb/c.txt\n") ∧
    (startClient (scenarioClient false) (.ok scenarioTree) readOnlyServer
        (lineNet (scenarioTree.open (lit "/src"))) World.fresh).world.serverFs.files = [] := by
  decide

/-- C4, as stated, fails: the tree holds one file, named `n\r`; the first run
sends and checkpoints it (k = m = 1); the resumed run reads the line back as
`n`, does not skip the file, and sends it again. -/
theorem resumed_run_resends_cr_name :
    (startClient (scenarioClient false) (.ok treeWithCrName) scenarioServer
        (lineNet (treeWithCrName.open (lit "/src"))) World.fresh).world.checkpointLog =
      some (lit "n\r\n") ∧
    (startClient (scenarioClient true) (.ok treeWithCrName) scenarioServer
        (lineNet (treeWithCrName.open (lit "/src")))
        (startClient (scenarioClient false) (.ok treeWithCrName) scenarioServer
          (lineNet (treeWithCrName.open (lit "/src"))) World.fresh).world).world.taken =
      [lit "/src/n\r"] := by
  decide

/-! ### `sendFile` and the workers -/

/-- The call `sendFile` returns nil exactly when the dial succeeds, the source
file opens and `io.Copy` copies all of it; the outcome of the two header writes
plays no part. -/
theorem sendFile_ok_iff (sharedKey file dir : Str) (e : SendEnv) :
    (sendFile sharedKey file dir e).ok = true ↔
      e.dial = true ∧ e.source.isSome = true ∧ e.copyFailsAfter = none := by
  obtain ⟨dial, k, p, source, copy⟩ := e
  cases dial <;> cases source <;> cases copy <;> simp [sendFile, Sent.ok]

/-- When `sendFile` returns nil, the whole source file is on the wire, behind
the header lines that could be written. -/
theorem sendFile_ok_wire (sharedKey file dir : Str) (e : SendEnv)
    (h : (sendFile sharedKey file dir e).ok = true) :
    ∃ content, e.source = some content ∧
      (sendFile sharedKey file dir e).wire =
        (if e.keyLineOk then sharedKey ++ [NL] else []) ++
          (if e.pathLineOk then relPath dir file ++ [NL] else []) ++ content := by
  obtain ⟨dial, k, p, source, copy⟩ := e
  cases dial <;> cases source <;> cases copy <;> simp_all [sendFile, Sent.ok]

/-- A worker whose `sendFile` returns an error leaves the checkpoint log and
the counter of completed files as they were. -/
theorem workerTurn_of_error (sharedKey dir : Str) (sv : Server) (deliver : Str → Chunks)
    (env : JobEnv) (file : Str) (w : World)
    (h : (sendFile sharedKey file dir env.send).ok = false) :
    (workerTurn sharedKey dir sv deliver env file w).checkpointLog = w.checkpointLog ∧
    (workerTurn sharedKey dir sv deliver env file w).processed = w.processed ∧
    (workerTurn sharedKey dir sv deliver env file w).failed = w.failed ++ [file] := by
  unfold Sent.ok at h
  simp only [workerTurn]
  split
  · exact ⟨rfl, rfl, rfl⟩
  · next n hr => simp [hr] at h

theorem workerTurn_checkpointLog (sharedKey dir : Str) (sv : Server) (deliver : Str → Chunks)
    (env : JobEnv) (file : Str) (w : World) :
    (workerTurn sharedKey dir sv deliver env file w).checkpointLog =
      if (sendFile sharedKey file dir env.send).ok && env.appendOk then
        appendLine w.checkpointLog (relPath dir file)
      else w.checkpointLog := by
  simp only [workerTurn, Sent.ok]
  split
  · next e hr => simp [hr]
  · next n hr => cases env.appendOk <;> simp [hr]

theorem runJobs_checkpointLog (sharedKey dir : Str) (sv : Server) (deliver : Str → Chunks)
    (jobEnv : Str → JobEnv) : ∀ (jobs : List Str) (w : World),
    (runJobs sharedKey dir sv deliver jobEnv jobs w).checkpointLog =
      (recorded sharedKey dir jobEnv jobs).foldl appendLine w.checkpointLog := by
  intro jobs
  induction jobs with
  | nil => intro w; simp [runJobs, recorded]
  | cons file rest ih =>
      intro w
      rw [runJobs, ih, workerTurn_checkpointLog]
      unfold recorded
      by_cases h : ((sendFile sharedKey file dir (jobEnv file).send).ok &&
          (jobEnv file).appendOk) = true
      · simp [List.filter_cons, h]
      · simp [List.filter_cons, h]

theorem runJobs_taken (sharedKey dir : Str) (sv : Server) (deliver : Str → Chunks)
    (jobEnv : Str → JobEnv) : ∀ (jobs : List Str) (w : World),
    (runJobs sharedKey dir sv deliver jobEnv jobs w).taken = w.taken ++ jobs := by
  intro jobs
  induction jobs with
  | nil => intro w; simp [runJobs]
  | cons file rest ih =>
      intro w
      rw [runJobs, ih]
      have : (workerTurn sharedKey dir sv deliver (jobEnv file) file w).taken =
          w.taken ++ [file] := by
        simp only [workerTurn]
        split <;> rfl
      rw [this]
      simp

theorem workerTurn_serverFs (sharedKey dir : Str) (sv : Server) (deliver : Str → Chunks)
    (jobEnv : Str → JobEnv) (file : Str) (w : World) :
    (workerTurn sharedKey dir sv deliver (jobEnv file) file w).serverFs =
      deliverJob sharedKey dir sv deliver jobEnv w.serverFs file := by
  simp only [workerTurn, deliverJob]
  split <;> rfl

theorem workerTurn_processed (sharedKey dir : Str) (sv : Server) (deliver : Str → Chunks)
    (jobEnv : Str → JobEnv) (file : Str) (w : World) :
    (workerTurn sharedKey dir sv deliver (jobEnv file) file w).processed =
      w.processed + (if sendOk sharedKey dir jobEnv file then 1 else 0) ∧
    (workerTurn sharedKey dir sv deliver (jobEnv file) file w).failed =
      w.failed ++ (if sendOk sharedKey dir jobEnv file then [] else [file]) := by
  simp only [workerTurn, sendOk, Sent.ok]
  split
  · next e hr => simp [hr]
  · next n hr => simp [hr]

/-- The server has handled, in order, the connection of each job taken. -/
theorem runJobs_serverFs (sharedKey dir : Str) (sv : Server) (deliver : Str → Chunks)
    (jobEnv : Str → JobEnv) : ∀ (jobs : List Str) (w : World),
    (runJobs sharedKey dir sv deliver jobEnv jobs w).serverFs =
      jobs.foldl (deliverJob sharedKey dir sv deliver jobEnv) w.serverFs := by
  intro jobs
  induction jobs with
  | nil => intro w; rfl
  | cons file rest ih =>
      intro w
      rw [runJobs, ih, workerTurn_serverFs, List.foldl_cons]

/-- Every job taken is counted as completed when its `sendFile` returned nil,
and is logged as failed otherwise. -/
theorem runJobs_processed (sharedKey dir : Str) (sv : Server) (deliver : Str → Chunks)
    (jobEnv : Str → JobEnv) : ∀ (jobs : List Str) (w : World),
    (runJobs sharedKey dir sv deliver jobEnv jobs w).processed =
      w.processed + (jobs.filter (sendOk sharedKey dir jobEnv)).length ∧
    (runJobs sharedKey dir sv deliver jobEnv jobs w).failed =
      w.failed ++ jobs.filter (fun file => !sendOk sharedKey dir jobEnv file) := by
  intro jobs
  induction jobs with
  | nil => intro w; simp [runJobs]
  | cons file rest ih =>
      intro w
      obtain ⟨h1, h2⟩ := workerTurn_processed sharedKey dir sv deliver jobEnv file w
      rw [runJobs, (ih _).1, (ih _).2, h1, h2]
      cases hok : sendOk sharedKey dir jobEnv file
      · simp [List.filter_cons, hok]
      · simp [List.filter_cons, hok]
        omega

/-- C6 (amended): at every point of a client run, that is after any sequence
of worker turns, the checkpoint log is the log the turns started from followed
by one line for each job taken whose `sendFile` returned nil (and whose append
succeeded); every path so recorded belongs to a job for which the dial
succeeded, the source file was opened, and `io.Copy` put the file's whole byte
stream on the connection. What the server did with the connection is not part
of it: the protocol has no acknowledgement. -/
theorem checkpoint_records_only_sent_jobs (sharedKey dir : Str) (sv : Server)
    (deliver : Str → Chunks) (jobEnv : Str → JobEnv) (jobs : List Str) (w : World) :
    (runJobs sharedKey dir sv deliver jobEnv jobs w).checkpointLog =
      (recorded sharedKey dir jobEnv jobs).foldl appendLine w.checkpointLog ∧
    ∀ rel ∈ recorded sharedKey dir jobEnv jobs,
      ∃ file content, file ∈ jobs ∧ relPath dir file = rel ∧
        (jobEnv file).send.dial = true ∧ (jobEnv file).send.source = some content ∧
        (jobEnv file).send.copyFailsAfter = none ∧
        content <:+ (sendFile sharedKey file dir (jobEnv file).send).wire := by
  refine ⟨runJobs_checkpointLog sharedKey dir sv deliver jobEnv jobs w, ?_⟩
  intro rel hrel
  unfold recorded at hrel
  rw [List.mem_map] at hrel
  obtain ⟨file, hfile, hrelEq⟩ := hrel
  rw [List.mem_filter, Bool.and_eq_true] at hfile
  obtain ⟨hmem, hok, _⟩ := hfile
  obtain ⟨hdial, _, hcopy⟩ := (sendFile_ok_iff sharedKey file dir _).mp hok
  obtain ⟨content, hsrc, hwire⟩ := sendFile_ok_wire sharedKey file dir _ hok
  exact ⟨file, content, hmem, hrelEq, hdial, hsrc, hcopy,
    by rw [hwire]; exact List.suffix_append _ _⟩

theorem foldl_appendLine_getD (recs : List Str) : ∀ (log : Option Str),
    (recs.foldl appendLine log).getD [] = log.getD [] ++ encodeLines recs := by
  induction recs with
  | nil => intro log; simp [encodeLines]
  | cons r rs ih =>
      intro log
      rw [List.foldl_cons, ih]
      cases log <;> simp [appendLine, encodeLines]

/-- The checkpoint log a run leaves when it starts without one: one line for
each job recorded, in the order the workers completed them. -/
theorem runJobs_fresh_log (sharedKey dir : Str) (sv : Server) (deliver : Str → Chunks)
    (jobEnv : Str → JobEnv) (jobs : List Str) :
    (runJobs sharedKey dir sv deliver jobEnv jobs World.fresh).checkpointLog.getD [] =
      encodeLines (recorded sharedKey dir jobEnv jobs) := by
  rw [runJobs_checkpointLog, foldl_appendLine_getD]
  rfl

/-! ### The checkpoint log read back, and the resumed run -/

theorem encodeLines_eq_nil {rels : List Str} (h : encodeLines rels = []) : rels = [] := by
  cases rels with
  | nil => rfl
  | cons r rs => simp [encodeLines] at h

/-- Scanning a checkpoint log of line-safe paths gives the paths back, however
the file falls into reads. -/
theorem scanAll_encodeLines : ∀ (rels : List Str) (fuel : Nat) (buf : Str) (conn : Chunks),
    (∀ r ∈ rels, LineSafe r) → buf ++ conn.flatten = encodeLines rels →
    pending buf conn < fuel → scanAll fuel buf conn = rels := by
  intro rels
  induction rels with
  | nil =>
      intro fuel buf conn _ h hfuel
      cases fuel with
      | zero => omega
      | succ fuel =>
          rw [scanAll, scan_nothing_left (by simpa [encodeLines] using h)]
  | cons r rs ih =>
      intro fuel buf conn hsafe h hfuel
      cases fuel with
      | zero => omega
      | succ fuel =>
          have hr : LineSafe r := hsafe r (by simp)
          have hs : splitNL (buf ++ conn.flatten) = some (r, encodeLines rs) := by
            rw [h]
            simpa [encodeLines] using splitNL_append_cons (encodeLines rs) hr.1
          obtain ⟨b, c, h1, h2⟩ := scan_line conn buf r _ hs hr.2.2
          rw [dropCR_of_lineSafe hr] at h1
          have hp := scan_pending h1
          rw [scanAll, h1]
          simp only [List.cons.injEq, true_and]
          exact ih fuel b c (fun x hx => hsafe x (by simp [hx])) h2 (by omega)

theorem loadCheckpoint_encodeLines (rels : List Str) (reads : Chunks)
    (hsafe : ∀ r ∈ rels, LineSafe r) (hreads : reads.flatten = encodeLines rels) :
    loadCheckpoint true (some reads) = rels := by
  simp only [loadCheckpoint, if_true]
  exact scanAll_encodeLines rels _ [] reads hsafe (by simpa using hreads) (Nat.lt_succ_self _)

theorem lineSafe_closeMessage : LineSafe CloseMessage := by decide

/-- The handler on a key line followed by the close line, in any cut into reads. -/
theorem handleConnection_close (env : ServerEnv) (sharedKey : Str) (conn : Chunks)
    (baseDir compress : Str) (checksum : Bool) (fs : FS) (hkey : LineSafe sharedKey)
    (hconn : conn.flatten = closeSignal sharedKey) :
    ∃ r, handleConnection env sharedKey conn baseDir compress checksum fs = some r ∧
      r.written = [] ∧ r.fs = fs ∧ r.closed = true := by
  have hs : splitNL ([] ++ conn.flatten) = some (sharedKey, CloseMessage ++ [NL]) := by
    rw [List.nil_append, hconn, closeSignal]
    simpa using splitNL_append_cons (CloseMessage ++ [NL]) hkey.1
  obtain ⟨b, c, h1, h2⟩ := scan_line conn [] sharedKey _ hs hkey.2.2
  rw [dropCR_of_lineSafe hkey] at h1
  have hs2 : splitNL (b ++ c.flatten) = some (CloseMessage, []) := by
    rw [h2]
    simpa using splitNL_append_cons [] lineSafe_closeMessage.1
  obtain ⟨b2, c2, h3, _⟩ := scan_line c b CloseMessage [] hs2 lineSafe_closeMessage.2.2
  rw [dropCR_of_lineSafe lineSafe_closeMessage] at h3
  unfold handleConnection
  rw [h1]
  simp only [ne_eq, not_true_eq_false, if_false]
  rw [handleLoop, h3]
  simp only [if_true]
  exact ⟨_, rfl, rfl, rfl, rfl⟩

theorem serverHandle_probe (sv : Server) (reads : Chunks) (fs : FS)
    (hkey : LineSafe sv.sharedKey) (h : reads.flatten = probeBytes sv.sharedKey) :
    sv.handle reads fs = fs := by
  obtain ⟨r, hr, _, hfs, _⟩ := handleConnection_ping sv.env sv.sharedKey reads sv.baseDir
    sv.compress sv.checksum fs hkey h
  simp [Server.handle, hr, hfs]

theorem serverHandle_close (sv : Server) (reads : Chunks) (fs : FS)
    (hkey : LineSafe sv.sharedKey) (h : reads.flatten = closeSignal sv.sharedKey) :
    sv.handle reads fs = fs := by
  obtain ⟨r, hr, _, hfs, _⟩ := handleConnection_close sv.env sv.sharedKey reads sv.baseDir
    sv.compress sv.checksum fs hkey h
  simp [Server.handle, hr, hfs]

/-- A run of `startClient` whose probe reaches a server with the same
line-safe key: the probe and the close signal leave the server's files alone,
and what remains is the walk and the worker turns. -/
theorem startClient_of_probe_ok (c : Client) (top : Except IOError Node) (sv : Server)
    (net : Net) (before : World)
    (hsame : sv.sharedKey = c.sharedKey) (hkey : LineSafe c.sharedKey)
    (hdial : net.probeDial = true) (hdeliver : Chunking net.deliver)
    (hback : Chunking net.back) :
    startClient c top sv net before =
      { fatal := false,
        queued :=
          (walker c.dir top
            (loadCheckpoint c.resume (before.checkpointLog.map net.fileReads)) c.workers
            net.walkerExit).pushed,
        world :=
          if 0 < c.workers then
            runJobs c.sharedKey c.dir sv net.deliver net.jobEnv
              (net.order (walker c.dir top
                (loadCheckpoint c.resume (before.checkpointLog.map net.fileReads)) c.workers
                net.walkerExit).pushed)
              { before with processed := 0, totalBytes := 0, taken := [], failed := [] }
          else { before with processed := 0, totalBytes := 0, taken := [], failed := [] } } := by
  have hkey' : LineSafe sv.sharedKey := hsame ▸ hkey
  have hprobe : testConnection c.sharedKey
      (some (serverPeer sv.env sv.sharedKey sv.baseDir sv.compress sv.checksum before.serverFs
        net.deliver net.back)) = true := by
    rw [hsame]
    exact testConnection_serverPeer sv.env c.sharedKey sv.baseDir sv.compress sv.checksum
      before.serverFs net.deliver net.back hkey hdeliver hback
  have hp : ∀ fs, sv.handle (net.deliver (probeBytes c.sharedKey)) fs = fs := fun fs =>
    serverHandle_probe sv _ fs hkey' (by rw [hdeliver, hsame])
  have hc : ∀ fs, sv.handle (net.deliver (closeSignal c.sharedKey)) fs = fs := fun fs =>
    serverHandle_close sv _ fs hkey' (by rw [hdeliver, hsame])
  simp only [startClient, hdial, if_true, hprobe, hp, hc, Bool.not_true, Bool.false_eq_true,
    if_false, ite_self]

theorem chunking_oneChunk : Chunking oneChunk := fun s => by simp [oneChunk]

theorem chunking_cutAfterNL : Chunking cutAfterNL := by
  intro s
  induction s with
  | nil => rfl
  | cons b rest ih =>
      by_cases hb : b = NL
      · simp [cutAfterNL, hb, ih]
      · cases hc : cutAfterNL rest with
        | nil =>
            rw [hc] at ih
            simp only [List.flatten_nil] at ih
            simp [cutAfterNL, hb, hc, ← ih]
        | cons chunk chunks =>
            rw [hc] at ih
            simp only [List.flatten_cons] at ih
            simp [cutAfterNL, hb, hc, ih]

/-- C4 (amended): for every source tree whose directories can all be read,
with m entries that are no directories, and every checkpoint log left by
prior runs whose lines are each one scanner line (no line terminator inside,
no carriage return at the end, shorter than 64 KiB), in any order and with
any repetition, k of the m entries having their relative path in the log: a
run with resume enabled, at least one worker and a passing probe queues
exactly the remaining m - k entries, and its workers take each of them once,
in whatever order, and call `sendFile` for it: the server handles the
connection of each in that order, each is counted as completed or logged as
failed by the result of its `sendFile`, and those that succeeded are appended
to the log. When k = m nothing is sent and the destination and the log stay
as they were. -/
theorem resumed_run_sends_the_rest (c : Client) (sv : Server) (net : Net) (t : Node)
    (logged : List Str) (before : World) (run : ClientRun)
    (hrun : startClient c (.ok t) sv net before = run)
    (hresume : c.resume = true) (hworkers : 0 < c.workers)
    (hsame : sv.sharedKey = c.sharedKey) (hkey : LineSafe c.sharedKey)
    (hdial : net.probeDial = true) (hdeliver : Chunking net.deliver)
    (hback : Chunking net.back) (hreads : Chunking net.fileReads)
    (horder : ∀ l, (net.order l).Perm l)
    (hread : t.readable = true)
    (hsafe : ∀ r ∈ logged, LineSafe r)
    (hlog : before.checkpointLog.getD [] = encodeLines logged) :
    run.fatal = false ∧
    run.queued =
      (nonDirPaths (t.events c.dir)).filter (fun p => !decide (relPath c.dir p ∈ logged)) ∧
    run.world.taken.Perm run.queued ∧
    run.world.taken.length =
      (nonDirPaths (t.events c.dir)).length -
        ((nonDirPaths (t.events c.dir)).filter
          (fun p => decide (relPath c.dir p ∈ logged))).length ∧
    run.world.serverFs =
      run.world.taken.foldl (deliverJob c.sharedKey c.dir sv net.deliver net.jobEnv)
        before.serverFs ∧
    run.world.processed =
      (run.world.taken.filter (sendOk c.sharedKey c.dir net.jobEnv)).length ∧
    run.world.failed =
      run.world.taken.filter (fun file => !sendOk c.sharedKey c.dir net.jobEnv file) ∧
    run.world.checkpointLog =
      (recorded c.sharedKey c.dir net.jobEnv run.world.taken).foldl appendLine
        before.checkpointLog ∧
    (((nonDirPaths (t.events c.dir)).filter
          (fun p => decide (relPath c.dir p ∈ logged))).length =
        (nonDirPaths (t.events c.dir)).length →
      run.world.taken = [] ∧ run.world.serverFs = before.serverFs ∧
        run.world.checkpointLog = before.checkpointLog) := by
  have hload : loadCheckpoint true (before.checkpointLog.map net.fileReads) = logged := by
    cases hl : before.checkpointLog with
    | none =>
        rw [hl] at hlog
        have : logged = [] := encodeLines_eq_nil (by simpa using hlog.symm)
        simp [loadCheckpoint, this]
    | some content =>
        rw [hl] at hlog
        simp only [Option.getD_some] at hlog
        exact loadCheckpoint_encodeLines logged _ hsafe (by rw [hreads, hlog])
  have hq : (walker c.dir (.ok t) logged c.workers net.walkerExit).pushed =
      (nonDirPaths (t.events c.dir)).filter
        (fun p => !decide (relPath c.dir p ∈ logged)) := by
    rw [walker_eq _ _ _ _ _ hworkers, (nodeEvents_of_readable t c.dir hread).2]
    rfl
  have hlen := List.length_eq_length_filter_add (l := nonDirPaths (t.events c.dir))
    (fun p => decide (relPath c.dir p ∈ logged))
  rw [startClient_of_probe_ok c (.ok t) sv net before hsame hkey hdial hdeliver hback] at hrun
  subst hrun
  simp only [hresume, hload, hq, hworkers, if_true, runJobs_taken, List.nil_append,
    runJobs_serverFs, runJobs_checkpointLog,
    (runJobs_processed c.sharedKey c.dir sv net.deliver net.jobEnv _ _).1,
    (runJobs_processed c.sharedKey c.dir sv net.deliver net.jobEnv _ _).2, Nat.zero_add]
  refine ⟨trivial, trivial, horder _, ?_, trivial, trivial, trivial, trivial, ?_⟩
  · rw [(horder _).length_eq]
    omega
  · intro hk
    have hnil : (nonDirPaths (t.events c.dir)).filter
        (fun p => !decide (relPath c.dir p ∈ logged)) = [] := by
      apply List.eq_nil_of_length_eq_zero
      omega
    have hord : net.order [] = [] := (horder []).eq_nil
    rw [hnil, hord]
    exact ⟨rfl, rfl, rfl⟩

theorem resumed_run_sends_the_rest_witness :
    (startClient (scenarioClient true) (.ok scenarioTree) scenarioServer
        (lineNet (scenarioTree.open (lit "/src")))
        { World.fresh with checkpointLog := some (lit "a.txt\n") }).fatal = false ∧
    (startClient (scenarioClient true) (.ok scenarioTree) scenarioServer
        (lineNet (scenarioTree.open (lit "/src")))
        { World.fresh with checkpointLog := some (lit "a.txt\n") }).queued =
      (nonDirPaths (scenarioTree.events (scenarioClient true).dir)).filter
        (fun p => !decide (relPath (scenarioClient true).dir p ∈ [lit "a.txt"])) ∧
    (startClient (scenarioClient true) (.ok scenarioTree) scenarioServer
        (lineNet (scenarioTree.open (lit "/src")))
        { World.fresh with checkpointLog := some (lit "a.txt\n") }).world.taken.Perm
      (startClient (scenarioClient true) (.ok scenarioTree) scenarioServer
        (lineNet (scenarioTree.open (lit "/src")))
        { World.fresh with checkpointLog := some (lit "a.txt\n") }).queued ∧
    (startClient (scenarioClient true) (.ok scenarioTree) scenarioServer
        (lineNet (scenarioTree.open (lit "/src")))
        { World.fresh with checkpointLog := some (lit "a.txt\n") }).world.taken.length =
      (nonDirPaths (scenarioTree.events (scenarioClient true).dir)).length -
        ((nonDirPaths (scenarioTree.events (scenarioClient true).dir)).filter
          (fun p => decide (relPath (scenarioClient true).dir p ∈ [lit "a.txt"]))).length ∧
    (startClient (scenarioClient true) (.ok scenarioTree) scenarioServer
        (lineNet (scenarioTree.open (lit "/src")))
        { World.fresh with checkpointLog := some (lit "a.txt\n") }).world.serverFs =
      (startClient (scenarioClient true) (.ok scenarioTree) scenarioServer
        (lineNet (scenarioTree.open (lit "/src")))
        { World.fresh with checkpointLog := some (lit "a.txt\n") }).world.taken.foldl
        (deliverJob (scenarioClient true).sharedKey (scenarioClient true).dir scenarioServer
          (lineNet (scenarioTree.open (lit "/src"))).deliver
          (lineNet (scenarioTree.open (lit "/src"))).jobEnv)
        ({ World.fresh with checkpointLog := some (lit "a.txt\n") } : World).serverFs ∧
    (startClient (scenarioClient true) (.ok scenarioTree) scenarioServer
        (lineNet (scenarioTree.open (lit "/src")))
        { World.fresh with checkpointLog := some (lit "a.txt\n") }).world.processed =
      ((startClient (scenarioClient true) (.ok scenarioTree) scenarioServer
        (lineNet (scenarioTree.open (lit "/src")))
        { World.fresh with checkpointLog := some (lit "a.txt\n") }).world.taken.filter
        (sendOk (scenarioClient true).sharedKey (scenarioClient true).dir
          (lineNet (scenarioTree.open (lit "/src"))).jobEnv)).length ∧
    (startClient (scenarioClient true) (.ok scenarioTree) scenarioServer
        (lineNet (scenarioTree.open (lit "/src")))
        { World.fresh with checkpointLog := some (lit "a.txt\n") }).world.failed =
      (startClient (scenarioClient true) (.ok scenarioTree) scenarioServer
        (lineNet (scenarioTree.open (lit "/src")))
        { World.fresh with checkpointLog := some (lit "a.txt\n") }).world.taken.filter
        (fun file => !sendOk (scenarioClient true).sharedKey (scenarioClient true).dir
          (lineNet (scenarioTree.open (lit "/src"))).jobEnv file) ∧
    (startClient (scenarioClient true) (.ok scenarioTree) scenarioServer
        (lineNet (scenarioTree.open (lit "/src")))
        { World.fresh with checkpointLog := some (lit "a.txt\n") }).world.checkpointLog =
      (recorded (scenarioClient true).sharedKey (scenarioClient true).dir
        (lineNet (scenarioTree.open (lit "/src"))).jobEnv
        (startClient (scenarioClient true) (.ok scenarioTree) scenarioServer
        (lineNet (scenarioTree.open (lit "/src")))
        { World.fresh with checkpointLog := some (lit "a.txt\n") }).world.taken).foldl appendLine
        ({ World.fresh with checkpointLog := some (lit "a.txt\n") } : World).checkpointLog ∧
    ((((nonDirPaths (scenarioTree.events (scenarioClient true).dir)).filter
          (fun p => decide (relPath (scenarioClient true).dir p ∈ [lit "a.txt"]))).length =
        (nonDirPaths (scenarioTree.events (scenarioClient true).dir)).length) →
      (startClient (scenarioClient true) (.ok scenarioTree) scenarioServer
        (lineNet (scenarioTree.open (lit "/src")))
        { World.fresh with checkpointLog := some (lit "a.txt\n") }).world.taken = [] ∧
      (startClient (scenarioClient true) (.ok scenarioTree) scenarioServer
        (lineNet (scenarioTree.open (lit "/src")))
        { World.fresh with checkpointLog := some (lit "a.txt\n") }).world.serverFs =
        ({ World.fresh with checkpointLog := some (lit "a.txt\n") } : World).serverFs ∧
      (startClient (scenarioClient true) (.ok scenarioTree) scenarioServer
        (lineNet (scenarioTree.open (lit "/src")))
        { World.fresh with checkpointLog := some (lit "a.txt\n") }).world.checkpointLog =
        ({ World.fresh with checkpointLog := some (lit "a.txt\n") } : World).checkpointLog) :=
  resumed_run_sends_the_rest (scenarioClient true) scenarioServer
    (lineNet (scenarioTree.open (lit "/src"))) scenarioTree [lit "a.txt"]
    { World.fresh with checkpointLog := some (lit "a.txt\n") } _ rfl rfl (by decide) rfl
    (by decide) rfl chunking_cutAfterNL chunking_oneChunk chunking_oneChunk
    (fun l => List.Perm.refl l) (by decide) (by decide) (by decide)

/-- The resumed run of the scenario with `a.txt` already in the log,
evaluated: the one remaining file is sent and stored, and its path is appended
to the log. -/
theorem resumed_scenario_evaluated :
    (startClient (scenarioClient true) (.ok scenarioTree) scenarioServer
        (lineNet (scenarioTree.open (lit "/src")))
        { World.fresh with checkpointLog := some (lit "a.txt\n") }) =
      { fatal := false,
        queued := [lit "/src/b/c.txt"],
        world :=
          { checkpointLog := some (lit "a.txt\nb/c.txt\n"),
            processed := 1, totalBytes := 10,
            taken := [lit "/src/b/c.txt"],
            failed := [],
            serverFs :=
              { files := [(lit "/out/b/c.txt", lit "0123456789")],
                dirs := [lit "/out/b"] } } } := by
  decide

/-! ### What `handleConnection` stores -/

theorem fsRead_create_append (fs : FS) (path bytes : Str) :
    ((fs.create path).append path bytes).read path = some bytes := by
  simp [FS.read, FS.create, FS.append]

/-- The round trip of one file when the header is read before the body
arrives: for line-safe key and path, the path no control word, the key line and
the path line each arriving in a read of their own and no directory or file
creation failing, the handler stores exactly the bytes that follow the path
line, up to end of stream, at the joined path. -/
theorem handleConnection_stores_body (env : ServerEnv) (sharedKey rel baseDir compress : Str)
    (checksum : Bool) (fs : FS) (body : Chunks)
    (hkey : LineSafe sharedKey) (hrel : LineSafe rel)
    (hping : rel ≠ PingMessage) (hclose : rel ≠ CloseMessage)
    (hmk : env.mkdirAllFails (env.parentDir (env.join baseDir rel)) = false)
    (hcr : env.createFails (env.join baseDir rel) = false) :
    ∃ r, handleConnection env sharedKey ((sharedKey ++ [NL]) :: (rel ++ [NL]) :: body)
        baseDir compress checksum fs = some r ∧
      r.fs.read (env.join baseDir rel) = some body.flatten ∧ r.closed = true := by
  have h1 : scan [] ((sharedKey ++ [NL]) :: (rel ++ [NL]) :: body) =
      .token sharedKey [] ((rel ++ [NL]) :: body) := by
    rw [scan_cons]
    have : splitBuffered [] = .more := by decide
    rw [this]
    simp only [List.nil_append]
    exact scan_of_buffered_token _ (by simpa using splitBuffered_line [] hkey)
  have h2 : scan [] ((rel ++ [NL]) :: body) = .token rel [] body := by
    rw [scan_cons]
    have : splitBuffered [] = .more := by decide
    rw [this]
    simp only [List.nil_append]
    exact scan_of_buffered_token _ (by simpa using splitBuffered_line [] hrel)
  have h3 : scan [] [] = .stop := by decide
  have hp : pending [] ((rel ++ [NL]) :: body) + 1 =
      (rel.length + body.flatten.length) + 1 + 1 := by
    simp [pending]
    omega
  unfold handleConnection
  rw [h1]
  simp only [ne_eq, not_true_eq_false, if_false, hp]
  rw [handleLoop, h2]
  simp only [hping, hclose, if_false, hmk, hcr, Bool.false_eq_true]
  rw [handleLoop, h3]
  exact ⟨_, rfl, by simp [fsRead_create_append], rfl⟩

theorem fsRead_create_append_nil (fs : FS) (path p : Str) :
    ((fs.create path).append path []).read p = fs.read p ∨
      ((fs.create path).append path []).read p = some [] := by
  by_cases h : p = path
  · right
    subst h
    simp [FS.read, FS.create, FS.append]
  · left
    have hne : ¬ path = p := fun e => h e.symm
    simp only [FS.read, FS.create, FS.append, List.append_nil, List.map_cons, List.find?_cons,
      decide_eq_true_eq, hne, if_true, if_false, decide_False, Bool.false_eq_true]
    have hmap : ∀ l : List (Str × Str),
        l.map (fun e => if e.1 = path then (e.1, e.2) else e) = l := by
      intro l
      induction l with
      | nil => rfl
      | cons e t ih => simp [ih]
    rw [hmap]
    have hfind : ∀ l : List (Str × Str),
        (l.filter (fun e => decide (e.1 ≠ path))).find? (fun e => decide (e.1 = p)) =
          l.find? (fun e => decide (e.1 = p)) := by
      intro l
      induction l with
      | nil => rfl
      | cons e t ih =>
          by_cases he : e.1 = path
          · have hep : ¬ e.1 = p := fun e' => h (e'.symm.trans he)
            rw [List.filter_cons_of_neg (by simpa using he),
              List.find?_cons_of_neg _ (by simpa using hep), ih]
          · rw [List.filter_cons_of_pos (by simpa using he)]
            by_cases hep : e.1 = p
            · rw [List.find?_cons_of_pos _ (by simpa using hep),
                List.find?_cons_of_pos _ (by simpa using hep)]
            · rw [List.find?_cons_of_neg _ (by simpa using hep),
                List.find?_cons_of_neg _ (by simpa using hep), ih]
    rw [hfind]

theorem scan_conn_nil {buf t b : Str} {c : Chunks} (h : scan buf [] = .token t b c) :
    c = [] := by
  rw [scan_nil] at h
  cases hs : splitBuffered buf with
  | token text rest =>
      rw [hs] at h
      simp only [ScanResult.token.injEq] at h
      exact h.2.2.symm
  | tooLong => rw [hs] at h; cases h
  | more =>
      rw [hs] at h
      by_cases hb : buf = []
      · simp [hb] at h
      · simp only [hb, if_false, ScanResult.token.injEq] at h
        exact h.2.2.symm

/-- Bytes that are in the scanner's buffer are never stored: once the
connection has nothing more to deliver, every file the loop of
`handleConnection` writes is left empty, whatever the buffer holds. -/
theorem handleLoop_stores_nothing_buffered (env : ServerEnv) (baseDir : Str) :
    ∀ (fuel : Nat) (buf : Str) (st r : Handled),
      handleLoop env baseDir fuel buf [] st = some r →
      ∀ p, r.fs.read p = st.fs.read p ∨ r.fs.read p = some [] := by
  intro fuel
  induction fuel with
  | zero => intro buf st r h; simp [handleLoop] at h
  | succ fuel ih =>
      intro buf st r h p
      rw [handleLoop] at h
      cases hs : scan buf [] with
      | stop =>
          rw [hs] at h
          simp only [Option.some.injEq] at h
          subst h
          exact Or.inl rfl
      | token line b c =>
          have hc : c = [] := scan_conn_nil hs
          subst hc
          rw [hs] at h
          simp only at h
          split at h
          · simp only [Option.some.injEq] at h
            subst h
            exact Or.inl rfl
          · split at h
            · exact ih _ _ _ h p
            · split at h
              · simp only [Option.some.injEq] at h
                subst h
                exact Or.inl rfl
              · split at h
                · simp only [Option.some.injEq] at h
                  subst h
                  exact Or.inl rfl
                · rcases ih _ _ _ h p with h1 | h1
                  · rw [h1]
                    simp only [List.flatten_nil]
                    exact fsRead_create_append_nil _ _ p
                  · exact Or.inr h1

/-- When all bytes of a connection arrive in one read, the handler stores none
of them: every destination file is as it was before or empty. -/
theorem handleConnection_one_read_stores_nothing (env : ServerEnv) (sharedKey stream : Str)
    (baseDir compress : Str) (checksum : Bool) (fs : FS) (r : Handled)
    (h : handleConnection env sharedKey [stream] baseDir compress checksum fs = some r) :
    ∀ p, r.fs.read p = fs.read p ∨ r.fs.read p = some [] := by
  intro p
  unfold handleConnection at h
  have h0 : scan [] [stream] = scan stream [] := by
    rw [scan_cons]
    have : splitBuffered [] = .more := by decide
    rw [this]
    simp
  rw [h0] at h
  cases hs : scan stream [] with
  | stop =>
      rw [hs] at h
      simp only [Option.some.injEq] at h
      subst h
      exact Or.inl rfl
  | token k b c =>
      have hc : c = [] := scan_conn_nil hs
      subst hc
      rw [hs] at h
      simp only at h
      split at h
      · simp only [Option.some.injEq] at h
        subst h
        exact Or.inl rfl
      · exact handleLoop_stores_nothing_buffered env baseDir _ _ _ _ h p

end Copier
